import Mathlib

/-!
# Reversie: move legality, capture resolution, turn control and outcome

A shallow embedding of the game engine of `src/script.js`.

* The global `gameState` object becomes the record `GameState`, passed explicitly; every
  function that mutates it returns the state after the call.
* Board cells, player ids, the mode and the scores are JavaScript numbers that only ever hold
  small non-negative integers; they are `Nat`.  Coordinates are `Int`, because a scan may step
  to `-1` before the bounds test.
* A read `gameState.board[x][y]` is `cellAt board x y : Option Nat`, with `none` for a read
  outside the arrays (JavaScript `undefined`; a read of a missing row throws instead, which
  the embedding does not distinguish).  Both only happen on a board that is not
  `boardSize × boardSize` or at coordinates outside the grid.
* The `while` loop of `checkDirection` takes fuel; running out of fuel is `none`.
* A seed write of `initializeBoard` into a row that does not exist throws; the call then
  returns no state, which is `none`.
* DOM code (`renderBoard`, `updateUI`, the modal markup) has no effect on the state and is
  left out.
-/

namespace Reversie

/-- A board coordinate, the object `{ row, col }` of the source. -/
abbrev Coord := Int × Int

/-- The `scores` object, with its keys `1`, `2` and `3`. -/
structure Scores where
  s1 : Nat
  s2 : Nat
  s3 : Nat
deriving DecidableEq, Repr

/-- The global `gameState` object (script.js, lines 2-10). -/
structure GameState where
  board : List (List Nat)
  boardSize : Nat
  playerMode : Nat
  currentPlayer : Nat
  scores : Scores
  gameActive : Bool
  validMoves : List Coord
deriving DecidableEq, Repr

/-- The constant `DIRECTIONS` (script.js, lines 13-17), in source order. -/
def DIRECTIONS : List (Int × Int) :=
  [(-1, -1), (-1, 0), (-1, 1),
   (0, -1),           (0, 1),
   (1, -1),  (1, 0),  (1, 1)]

/-- The read `board[x][y]`; `none` is a read outside the arrays. -/
def cellAt (board : List (List Nat)) (x y : Int) : Option Nat :=
  if x < 0 ∨ y < 0 then none
  else
    match board[x.toNat]? with
    | none => none
    | some r => r[y.toNat]?

/-- The write `board[x][y] = v` at a position that exists; other positions are left alone. -/
def setCell (board : List (List Nat)) (x y : Int) (v : Nat) : List (List Nat) :=
  if x < 0 ∨ y < 0 then board
  else
    match board[x.toNat]? with
    | none => board
    | some r => board.set x.toNat (r.set y.toNat v)

/-- The loop condition of `checkDirection`: `x >= 0 && x < boardSize && y >= 0 && y < boardSize`. -/
def inBounds (s : GameState) (x y : Int) : Prop :=
  x ≥ 0 ∧ x < (s.boardSize : Int) ∧ y ≥ 0 ∧ y < (s.boardSize : Int)

instance (s : GameState) (x y : Int) : Decidable (inBounds s x y) := by
  unfold inBounds; infer_instance

/-- The `while` loop of `checkDirection` (script.js, lines 228-264).  `opponentColor` is
`none` for `null`; `line` grows at its end, as `push` does.  The result is `none` only when
the fuel runs out. -/
def checkDirectionLoop (s : GameState) (dx dy : Int) (player : Nat) :
    Nat → Int → Int → Option (Option Nat) → List Coord → Option (List Coord)
  | 0, _, _, _, _ => none
  | fuel + 1, x, y, opponentColor, line =>
    if inBounds s x y then
      let cellValue := cellAt s.board x y
      if cellValue = some 0 then some []
      else if cellValue = some player then
        if line.length > 0 then some line else some []
      else if s.playerMode = 3 then
        match opponentColor with
        | none => checkDirectionLoop s dx dy player fuel (x + dx) (y + dy) (some cellValue)
            (line ++ [(x, y)])
        | some c =>
          if cellValue = c then
            checkDirectionLoop s dx dy player fuel (x + dx) (y + dy) opponentColor
              (line ++ [(x, y)])
          else some []
      else
        checkDirectionLoop s dx dy player fuel (x + dx) (y + dy) opponentColor
          (line ++ [(x, y)])
    else some []

/-- The function `checkDirection(row, col, dx, dy, player)` (script.js, lines 220-265).  Each
pass of the loop is at a cell of the grid and a direction of `DIRECTIONS` leaves the grid
after at most `boardSize` cells, so `boardSize + 1` tests of the loop condition suffice
(`checkDirection_isSome`). -/
def checkDirection (s : GameState) (row col dx dy : Int) (player : Nat) :
    Option (List Coord) :=
  checkDirectionLoop s dx dy player (s.boardSize + 1) (row + dx) (col + dy) none []

/-- The function `getFlippableDiscs(row, col, player)` (script.js, lines 206-217).  The scan
of each direction of `DIRECTIONS` returns (`checkDirection_isSome`), so the default of `getD`
is never taken. -/
def getFlippableDiscs (s : GameState) (row col : Int) (player : Nat) : List Coord :=
  DIRECTIONS.foldl
    (fun (toFlip : List Coord) (d : Int × Int) =>
      let lineFlips := (checkDirection s row col d.1 d.2 player).getD []
      if lineFlips.length > 0 then toFlip ++ lineFlips else toFlip)
    []

/-- The function `isValidMove(row, col, player)` (script.js, lines 198-203). -/
def isValidMove (s : GameState) (row col : Int) (player : Nat) : Bool :=
  if cellAt s.board row col ≠ some 0 then false
  else
    let flippable := getFlippableDiscs s row col player
    decide (flippable.length > 0)

/-- The function `flipDiscs(discsToFlip)` (script.js, lines 268-272). -/
def flipDiscs (s : GameState) (discsToFlip : List Coord) : GameState :=
  discsToFlip.foldl
    (fun (st : GameState) (d : Coord) =>
      { st with board := setCell st.board d.1 d.2 st.currentPlayer })
    s

/-- The function `getValidMoves(player)` (script.js, lines 275-287): rows outermost, columns
innermost, in increasing order. -/
def getValidMoves (s : GameState) (player : Nat) : List Coord :=
  (List.range s.boardSize).foldl
    (fun (moves : List Coord) (row : Nat) =>
      (List.range s.boardSize).foldl
        (fun (moves : List Coord) (col : Nat) =>
          if cellAt s.board row col = some 0 ∧ isValidMove s row col player = true then
            moves ++ [((row : Int), (col : Int))]
          else moves)
        moves)
    []

/-- The function `updateValidMoves()` (script.js, lines 290-292). -/
def updateValidMoves (s : GameState) : GameState :=
  { s with validMoves := getValidMoves s s.currentPlayer }

/-- The `while (attempts < maxPlayers)` loop of `switchTurn` (script.js, lines 303-318); the
first argument counts the passes that remain, `maxPlayers - attempts`. -/
def switchTurnLoop (s : GameState) (maxPlayers : Nat) : Nat → Nat → GameState
  | 0, _ => { s with gameActive := false }
  | remaining + 1, nextPlayer =>
    let moves := getValidMoves s nextPlayer
    if moves.length > 0 then
      { s with currentPlayer := nextPlayer, validMoves := moves }
    else
      switchTurnLoop s maxPlayers remaining ((nextPlayer % maxPlayers) + 1)

/-- The function `switchTurn()` (script.js, lines 295-319). -/
def switchTurn (s : GameState) : GameState :=
  let maxPlayers := s.playerMode
  switchTurnLoop s maxPlayers maxPlayers ((s.currentPlayer % maxPlayers) + 1)

/-- The statement `gameState.scores[value]++` as far as the keys `1`, `2`, `3` go; any other
`value` leaves these three counts as they are. -/
def incScore (sc : Scores) (value : Nat) : Scores :=
  if value = 1 then { sc with s1 := sc.s1 + 1 }
  else if value = 2 then { sc with s2 := sc.s2 + 1 }
  else if value = 3 then { sc with s3 := sc.s3 + 1 }
  else sc

/-- The function `calculateScore()` (script.js, lines 322-333).  A read outside the arrays
is not `0` and increments no key among `1`, `2`, `3`. -/
def calculateScore (s : GameState) : GameState :=
  let counted : Scores :=
    (List.range s.boardSize).foldl
      (fun (sc : Scores) (row : Nat) =>
        (List.range s.boardSize).foldl
          (fun (sc : Scores) (col : Nat) =>
            match cellAt s.board row col with
            | some value => if value ≠ 0 then incScore sc value else sc
            | none => sc)
          sc)
      ⟨0, 0, 0⟩
  { s with scores := counted }

/-- The synchronous part of `handleCellClick(row, col)` (script.js, lines 168-189): the state
when the call returns.  A click outside the grid reads no cell equal to `0` and is
rejected. -/
def handleCellClick (s : GameState) (row col : Int) : GameState :=
  if !s.gameActive then s
  else if !isValidMove s row col s.currentPlayer then s
  else
    let s1 := { s with board := setCell s.board row col s.currentPlayer }
    let toFlip := getFlippableDiscs s1 row col s1.currentPlayer
    let s2 := flipDiscs s1 toFlip
    let s3 := calculateScore s2
    let s4 := switchTurn s3
    updateValidMoves s4

/-- The count `emptyCount` of `checkGameEnd` (script.js, lines 365-370). -/
def emptyCount (s : GameState) : Nat :=
  (List.range s.boardSize).foldl
    (fun (n : Nat) (row : Nat) =>
      (List.range s.boardSize).foldl
        (fun (n : Nat) (col : Nat) => if cellAt s.board row col = some 0 then n + 1 else n)
        n)
    0

/-- The function `checkGameEnd()` (script.js, lines 358-376), which `handleCellClick` defers
by a timer. -/
def checkGameEnd (s : GameState) : GameState :=
  if !s.gameActive then s
  else if emptyCount s = 0 then { s with gameActive := false }
  else s

/-- The value `maxScore` of `showEndGameModal` (script.js, line 381). -/
def maxScore (s : GameState) : Nat :=
  max (max s.scores.s1 s.scores.s2) (if s.playerMode = 3 then s.scores.s3 else 0)

/-- The list `winners` of `showEndGameModal` (script.js, lines 384-387), holding player ids
in place of the labels `Player 1 (Black)`, `Player 2 (White)`, `Player 3 (Red)`. -/
def winners (s : GameState) : List Nat :=
  (if s.scores.s1 = maxScore s then [1] else []) ++
  (if s.scores.s2 = maxScore s then [2] else []) ++
  (if s.playerMode = 3 ∧ s.scores.s3 = maxScore s then [3] else [])

/-- The announcement of `showEndGameModal` (script.js, lines 391-395): a win is announced
when `winners.length === 1`, a tie otherwise. -/
def announcesTie (s : GameState) : Bool :=
  if (winners s).length = 1 then false else true

/-- The write `board[x][y] = v` of `initializeBoard`: when the row `board[x]` does not exist
the statement throws a `TypeError`, which is `none`. -/
def writeCell (board : List (List Nat)) (x y : Int) (v : Nat) : Option (List (List Nat)) :=
  if x < 0 then none
  else
    match board[x.toNat]? with
    | none => none
    | some _ => some (setCell board x y v)

/-- The function `initializeBoard(size, mode)` (script.js, lines 102-131): the state when
the call returns, `none` when a seed write throws.  Every field of `gameState` is assigned:
`scores` by `calculateScore` and `validMoves` by `updateValidMoves`, so the state before the
call plays no part.  There is no check of `size` or `mode`. -/
def initializeBoard (size mode : Nat) : Option GameState := do
  let board0 : List (List Nat) := List.replicate size (List.replicate size 0)
  let center : Int := ((size / 2 : Nat) : Int)
  let board ←
    if mode = 2 then do
      let b1 ← writeCell board0 (center - 1) (center - 1) 2
      let b2 ← writeCell b1 (center - 1) center 1
      let b3 ← writeCell b2 center (center - 1) 1
      writeCell b3 center center 2
    else do
      let b1 ← writeCell board0 (center - 1) (center - 1) 1
      let b2 ← writeCell b1 (center - 1) center 2
      let b3 ← writeCell b2 center (center - 1) 3
      if size ≥ 8 then writeCell b3 center center 1 else pure b3
  let s : GameState :=
    { board := board
      boardSize := size
      playerMode := mode
      currentPlayer := 1
      scores := ⟨0, 0, 0⟩
      gameActive := true
      validMoves := [] }
  pure (updateValidMoves (calculateScore s))

/-! ## Specification vocabulary -/

/-- The board is a `boardSize × boardSize` grid. -/
def WellFormed (s : GameState) : Prop :=
  s.board.length = s.boardSize ∧ ∀ r ∈ s.board, r.length = s.boardSize

instance (s : GameState) : Decidable (WellFormed s) := by
  unfold WellFormed; infer_instance

/-- The value of the cell `i` steps away from `(row, col)` in direction `(dx, dy)`. -/
def stepCell (s : GameState) (row col dx dy : Int) (i : Nat) : Option Nat :=
  cellAt s.board (row + (i : Int) * dx) (col + (i : Int) * dy)

/-- The cell `i` steps away from `(row, col)` in direction `(dx, dy)` is on the grid. -/
def stepInBounds (s : GameState) (row col dx dy : Int) (i : Nat) : Prop :=
  inBounds s (row + (i : Int) * dx) (col + (i : Int) * dy)

instance (s : GameState) (row col dx dy : Int) (i : Nat) :
    Decidable (stepInBounds s row col dx dy i) := by
  unfold stepInBounds; infer_instance

/-- The coordinates at steps `1, ..., k` from `(row, col)` in direction `(dx, dy)`, in that
order. -/
def runCells (row col dx dy : Int) (k : Nat) : List Coord :=
  (List.range k).map (fun (i : Nat) => (row + ((i : Int) + 1) * dx, col + ((i : Int) + 1) * dy))

/-- A capturable run of length `k`: the cells at steps `1..k` are on the grid, not Empty and
not owned by `p`, in 3-player mode they all hold the value of the first one, and the cell at
step `k + 1` is on the grid and owned by `p`. -/
def Capturable (s : GameState) (row col dx dy : Int) (p k : Nat) : Prop :=
  1 ≤ k ∧
  (∀ i, i < k → stepInBounds s row col dx dy (i + 1) ∧
      stepCell s row col dx dy (i + 1) ≠ some 0 ∧ stepCell s row col dx dy (i + 1) ≠ some p) ∧
  (s.playerMode = 3 → ∀ i, i < k → stepCell s row col dx dy (i + 1) = stepCell s row col dx dy 1) ∧
  stepInBounds s row col dx dy (k + 1) ∧ stepCell s row col dx dy (k + 1) = some p

instance (s : GameState) (row col dx dy : Int) (p k : Nat) :
    Decidable (Capturable s row col dx dy p k) := by
  unfold Capturable; infer_instance

/-! ## Vocabulary of the proofs -/

/-- The cells at steps `0, ..., j - 1` from `(x, y)`: what the loop appends to `line` in `j`
passes. -/
def segCells (x y dx dy : Int) (j : Nat) : List Coord :=
  (List.range j).map (fun (i : Nat) => (x + (i : Int) * dx, y + (i : Int) * dy))

/-- The loop, entered at `(x, y)` with `opponentColor = opp`, makes `j` passes that each
append a cell and then meets a cell of `p` on the grid. -/
def LoopCond (s : GameState) (dx dy : Int) (p : Nat) (x y : Int) (opp : Option (Option Nat))
    (j : Nat) : Prop :=
  (∀ i, i < j → inBounds s (x + (i : Int) * dx) (y + (i : Int) * dy) ∧
      cellAt s.board (x + (i : Int) * dx) (y + (i : Int) * dy) ≠ some 0 ∧
      cellAt s.board (x + (i : Int) * dx) (y + (i : Int) * dy) ≠ some p ∧
      (s.playerMode = 3 →
        cellAt s.board (x + (i : Int) * dx) (y + (i : Int) * dy) = opp.getD (cellAt s.board x y))) ∧
  inBounds s (x + (j : Int) * dx) (y + (j : Int) * dy) ∧
  cellAt s.board (x + (j : Int) * dx) (y + (j : Int) * dy) = some p

/-- The number of cells from `(x, y)` to the edge of the grid in direction `(dx, dy)`, the
cell `(x, y)` included: the variant of the loop. -/
def dirMeasure (s : GameState) (dx dy x y : Int) : Int :=
  if dx = 1 then (s.boardSize : Int) - x
  else if dx = -1 then x + 1
  else if dy = 1 then (s.boardSize : Int) - y
  else y + 1

/-- Every cell of the board holds one of the four values `0`, `1`, `2`, `3`. -/
def ValidCells (s : GameState) : Prop :=
  ∀ r ∈ s.board, ∀ v ∈ r, v ≤ 3

instance (s : GameState) : Decidable (ValidCells s) := by
  unfold ValidCells; infer_instance

/-- The sum of all scores. -/
def Scores.total (sc : Scores) : Nat := sc.s1 + sc.s2 + sc.s3

/-- The contribution of one cell read to the sum of the scores: `1` for a tile of player
`1`, `2` or `3`, and `0` otherwise. -/
def tileCount (o : Option Nat) : Nat :=
  if o = some 1 ∨ o = some 2 ∨ o = some 3 then 1 else 0

/-- The first `n` players probed from `q` on in round-robin order, each followed by its
successor `(q mod M) + 1`. -/
def roundRobin (M : Nat) : Nat → Nat → List Nat
  | 0, _ => []
  | n + 1, q => q :: roundRobin M n ((q % M) + 1)

/-- The `M` candidates of a turn advance from player `c`: `(c mod M) + 1`, then its
round-robin successors. -/
def turnCandidates (M c : Nat) : List Nat :=
  roundRobin M M ((c % M) + 1)

/-- The state that `switchTurn` leaves when the probe finds `found`: the first candidate
with a legal move becomes the current player and its legal moves are cached; with no such
candidate the game is no longer active. -/
def turnOutcome (s : GameState) (found : Option Nat) : GameState :=
  match found with
  | some q => { s with currentPlayer := q, validMoves := getValidMoves s q }
  | none => { s with gameActive := false }

/-- The players of the active mode: `1, 2, 3` in 3-player mode, `1, 2` otherwise. -/
def activePlayers (s : GameState) : List Nat :=
  if s.playerMode = 3 then [1, 2, 3] else [1, 2]

/-- The score `scores[q]` of player `q`. -/
def scoreOf (s : GameState) (q : Nat) : Nat :=
  if q = 1 then s.scores.s1 else if q = 2 then s.scores.s2 else if q = 3 then s.scores.s3 else 0

/-- The board has `N` rows of `N` cells. -/
def BoardDims (b : List (List Nat)) (N : Nat) : Prop :=
  b.length = N ∧ ∀ r ∈ b, r.length = N

/-- The initial layout in the words of the specification, with `c = floor(N / 2)`: in
2-player mode `(c-1,c-1) = 2`, `(c-1,c) = 1`, `(c,c-1) = 1`, `(c,c) = 2`; otherwise
`(c-1,c-1) = 1`, `(c-1,c) = 2`, `(c,c-1) = 3` and `(c,c) = 1` if `N ≥ 8`; every other cell is
Empty. -/
def seedLayout (N mode : Nat) (x y : Int) : Nat :=
  let c : Int := ((N / 2 : Nat) : Int)
  if mode = 2 then
    if x = c - 1 ∧ y = c - 1 then 2
    else if x = c - 1 ∧ y = c then 1
    else if x = c ∧ y = c - 1 then 1
    else if x = c ∧ y = c then 2
    else 0
  else
    if x = c - 1 ∧ y = c - 1 then 1
    else if x = c - 1 ∧ y = c then 2
    else if x = c ∧ y = c - 1 then 3
    else if x = c ∧ y = c ∧ 8 ≤ N then 1
    else 0

/-- The board that `initializeBoard` builds when none of its writes throws. -/
def seedBoard (N mode : Nat) : List (List Nat) :=
  let board0 : List (List Nat) := List.replicate N (List.replicate N 0)
  let center : Int := ((N / 2 : Nat) : Int)
  if mode = 2 then
    setCell (setCell (setCell (setCell board0 (center - 1) (center - 1) 2)
      (center - 1) center 1) center (center - 1) 1) center center 2
  else
    let b3 := setCell (setCell (setCell board0 (center - 1) (center - 1) 1)
      (center - 1) center 2) center (center - 1) 3
    if N ≥ 8 then setCell b3 center center 1 else b3

/-- The state before `calculateScore` and `updateValidMoves` run in `initializeBoard`. -/
def seedState (N mode : Nat) : GameState :=
  { board := seedBoard N mode
    boardSize := N
    playerMode := mode
    currentPlayer := 1
    scores := ⟨0, 0, 0⟩
    gameActive := true
    validMoves := [] }

/-- The states a game passes through: the state `initializeBoard(N, mode)` returns, then
any sequence of `handleCellClick` calls, between which the deferred `checkGameEnd` may
run. -/
inductive Reachable (N mode : Nat) : GameState → Prop
  | init (s : GameState) : initializeBoard N mode = some s → Reachable N mode s
  | click (s : GameState) (row col : Int) :
      Reachable N mode s → Reachable N mode (handleCellClick s row col)
  | endCheck (s : GameState) : Reachable N mode s → Reachable N mode (checkGameEnd s)

/-- The number of cells of the grid that are not Empty. -/
def nonEmptyCount (s : GameState) : Nat :=
  ((List.range s.boardSize).map (fun (r : Nat) =>
    ((List.range s.boardSize).map (fun (c : Nat) =>
      if cellAt s.board r c = some 0 then 0 else 1)).sum)).sum

/-- The invariant of a game of size `N` in mode `mode`: the board is `N × N`, the size and
the mode are those of the game, the current player is a player of the mode, every cell
holds `0` or a player of the mode, the cached legal moves are those of the current player,
and the game is Active exactly when there is one. -/
def GameInv (N mode : Nat) (s : GameState) : Prop :=
  BoardDims s.board N ∧ s.boardSize = N ∧ s.playerMode = mode ∧
  (1 ≤ s.currentPlayer ∧ s.currentPlayer ≤ mode) ∧
  (∀ r ∈ s.board, ∀ v ∈ r, v ≤ mode) ∧
  s.validMoves = getValidMoves s s.currentPlayer ∧
  (s.gameActive = true ↔ s.validMoves ≠ [])

/-- The state of `handleCellClick(row, col)` at the call of `switchTurn` (script.js, lines
176-183): the disc is placed, the captures are flipped and the scores are recomputed. -/
def afterFlips (s : GameState) (row col : Int) : GameState :=
  let s1 := { s with board := setCell s.board row col s.currentPlayer }
  calculateScore (flipDiscs s1 (getFlippableDiscs s1 row col s1.currentPlayer))

/-- A sequence of calls of `handleCellClick`, one for each coordinate of the list. -/
def playMoves (s : GameState) (moves : List Coord) : GameState :=
  moves.foldl (fun (st : GameState) (m : Coord) => handleCellClick st m.1 m.2) s

/-! ## Example states -/

/-- A new 2-player game on a 4 × 4 board. -/
def st4 : GameState :=
  { board := [[0, 0, 0, 0], [0, 2, 1, 0], [0, 1, 2, 0], [0, 0, 0, 0]]
    boardSize := 4
    playerMode := 2
    currentPlayer := 1
    scores := ⟨2, 2, 0⟩
    gameActive := true
    validMoves := [(0, 1), (1, 0), (2, 3), (3, 2)] }

/-- An Active 2-player state on a 4 × 4 board with one Empty cell, `(0, 0)`, where player 1
captures `(0, 1)`. -/
def stLast : GameState :=
  { board := [[0, 2, 1, 1], [1, 1, 2, 2], [2, 1, 2, 1], [1, 2, 1, 2]]
    boardSize := 4
    playerMode := 2
    currentPlayer := 1
    scores := ⟨8, 7, 0⟩
    gameActive := true
    validMoves := [(0, 0)] }

/-- An Active 3-player state on a 4 × 4 board: from `(1, 0)` player 1 captures the two
discs of player 2 to its right, while the run to the right of `(0, 0)` mixes players 2
and 3. -/
def st3 : GameState :=
  { board := [[0, 2, 3, 1], [0, 2, 2, 1], [0, 3, 1, 0], [1, 0, 0, 0]]
    boardSize := 4
    playerMode := 3
    currentPlayer := 1
    scores := ⟨4, 3, 2⟩
    gameActive := true
    validMoves := [(0, 0), (1, 0), (2, 0)] }

/-- A new 2-player game on an 8 × 8 board. -/
def st8 : GameState :=
  { board := [[0, 0, 0, 0, 0, 0, 0, 0],
              [0, 0, 0, 0, 0, 0, 0, 0],
              [0, 0, 0, 0, 0, 0, 0, 0],
              [0, 0, 0, 2, 1, 0, 0, 0],
              [0, 0, 0, 1, 2, 0, 0, 0],
              [0, 0, 0, 0, 0, 0, 0, 0],
              [0, 0, 0, 0, 0, 0, 0, 0],
              [0, 0, 0, 0, 0, 0, 0, 0]]
    boardSize := 8
    playerMode := 2
    currentPlayer := 1
    scores := ⟨2, 2, 0⟩
    gameActive := true
    validMoves := [(2, 3), (3, 2), (4, 5), (5, 4)] }

/-- The 2-player game on a 4 × 4 board after the eight moves `(0,1)`, `(0,0)`, `(1,0)`,
`(0,2)`, `(0,3)`, `(2,0)`, `(3,0)`, `(2,3)`: player 1 has just been skipped and player 2 is
to move; after `(3,2)` nobody can move, with three cells still Empty. -/
def stSkip : GameState :=
  { board := [[2, 2, 2, 1], [2, 2, 2, 0], [2, 1, 2, 2], [1, 0, 0, 0]]
    boardSize := 4
    playerMode := 2
    currentPlayer := 2
    scores := ⟨3, 9, 0⟩
    gameActive := true
    validMoves := [(3, 1), (3, 2)] }

/-! ## Lemmas on the scan -/

theorem segCells_succ (x y dx dy : Int) (j : Nat) :
    segCells x y dx dy (j + 1) = (x, y) :: segCells (x + dx) (y + dy) dx dy j := by
  simp only [segCells]
  rw [List.range_succ_eq_map]
  simp [Function.comp_def]
  intro i _
  constructor <;> ring

theorem LoopCond_unique {s : GameState} {dx dy : Int} {p : Nat} {x y : Int}
    {opp opp2 : Option (Option Nat)} {j k : Nat}
    (hj : LoopCond s dx dy p x y opp j) (hk : LoopCond s dx dy p x y opp2 k) : j = k := by
  rcases Nat.lt_trichotomy j k with h | h | h
  · exact absurd hj.2.2 (hk.1 j h).2.2.1
  · exact h
  · exact absurd hk.2.2 (hj.1 k h).2.2.1

theorem LoopCond_zero_cell {s : GameState} {dx dy : Int} {p : Nat} {x y : Int}
    {opp : Option (Option Nat)} (h : LoopCond s dx dy p x y opp 0) :
    inBounds s x y ∧ cellAt s.board x y = some p := by
  have := h.2
  simpa using this

theorem LoopCond_succ_cell {s : GameState} {dx dy : Int} {p : Nat} {x y : Int}
    {opp : Option (Option Nat)} {j : Nat} (h : LoopCond s dx dy p x y opp (j + 1)) :
    inBounds s x y ∧ cellAt s.board x y ≠ some 0 ∧ cellAt s.board x y ≠ some p ∧
      (s.playerMode = 3 → cellAt s.board x y = opp.getD (cellAt s.board x y)) := by
  have := h.1 0 (Nat.succ_pos j)
  simpa using this

/-- Dropping the first pass of a run. -/
theorem LoopCond_tail {s : GameState} {dx dy : Int} {p : Nat} {x y : Int}
    {opp : Option (Option Nat)} {j : Nat} (h : LoopCond s dx dy p x y opp (j + 1)) :
    LoopCond s dx dy p (x + dx) (y + dy) (some (opp.getD (cellAt s.board x y))) j := by
  have e : ∀ (a d : Int) (i : Nat), a + d + (i : Int) * d = a + ((i + 1 : Nat) : Int) * d := by
    intro a d i; push_cast; ring
  refine ⟨fun i hi => ?_, ?_⟩
  · have := h.1 (i + 1) (Nat.succ_lt_succ hi)
    rw [e x dx i, e y dy i]
    refine ⟨this.1, this.2.1, this.2.2.1, fun h3 => ?_⟩
    simpa using this.2.2.2 h3
  · rw [e x dx j, e y dy j]
    exact h.2

/-- Adding a first pass to a run. -/
theorem LoopCond_cons {s : GameState} {dx dy : Int} {p : Nat} {x y : Int}
    {opp : Option (Option Nat)} {j : Nat}
    (hb : inBounds s x y) (h0 : cellAt s.board x y ≠ some 0) (hp : cellAt s.board x y ≠ some p)
    (hc : s.playerMode = 3 → cellAt s.board x y = opp.getD (cellAt s.board x y))
    (h : LoopCond s dx dy p (x + dx) (y + dy) (some (opp.getD (cellAt s.board x y))) j) :
    LoopCond s dx dy p x y opp (j + 1) := by
  have e : ∀ (a d : Int) (i : Nat), a + ((i + 1 : Nat) : Int) * d = a + d + (i : Int) * d := by
    intro a d i; push_cast; ring
  refine ⟨fun i hi => ?_, ?_⟩
  · cases i with
    | zero => simpa using ⟨hb, h0, hp, hc⟩
    | succ i =>
      have := h.1 i (Nat.lt_of_succ_lt_succ hi)
      rw [e x dx i, e y dy i]
      refine ⟨this.1, this.2.1, this.2.2.1, fun h3 => ?_⟩
      simpa using this.2.2.2 h3
  · rw [e x dx j, e y dy j]
    exact h.2

/-- Outside 3-player mode the tracked colour plays no part. -/
theorem LoopCond_opp_irrel {s : GameState} {dx dy : Int} {p : Nat} {x y : Int}
    {opp opp2 : Option (Option Nat)} {j : Nat} (hm : s.playerMode ≠ 3)
    (h : LoopCond s dx dy p x y opp j) : LoopCond s dx dy p x y opp2 j :=
  ⟨fun i hi => ⟨(h.1 i hi).1, (h.1 i hi).2.1, (h.1 i hi).2.2.1, fun h3 => absurd h3 hm⟩, h.2⟩

/-- One pass of the loop that appends `(x, y)` and goes on: what holds of the rest of the
scan carries over to the scan from `(x, y)`. -/
theorem loop_step_case {s : GameState} {dx dy : Int} {p : Nat} {x y : Int}
    {opp opp2 : Option (Option Nat)} {line : List Coord} {R : Option (List Coord)}
    (hb : inBounds s x y) (h0 : cellAt s.board x y ≠ some 0) (hpn : cellAt s.board x y ≠ some p)
    (hc : s.playerMode = 3 → cellAt s.board x y = opp.getD (cellAt s.board x y))
    (hopp : ∀ j, LoopCond s dx dy p (x + dx) (y + dy) opp2 j ↔
      LoopCond s dx dy p (x + dx) (y + dy) (some (opp.getD (cellAt s.board x y))) j)
    (hR : R = none ∨
      (∃ j, LoopCond s dx dy p (x + dx) (y + dy) opp2 j ∧ (line ++ [(x, y)] ≠ [] ∨ 0 < j) ∧
          R = some (line ++ [(x, y)] ++ segCells (x + dx) (y + dy) dx dy j)) ∨
      ((∀ j, LoopCond s dx dy p (x + dx) (y + dy) opp2 j → ¬ (line ++ [(x, y)] ≠ [] ∨ 0 < j)) ∧
          R = some [])) :
    R = none ∨
      (∃ j, LoopCond s dx dy p x y opp j ∧ (line ≠ [] ∨ 0 < j) ∧
          R = some (line ++ segCells x y dx dy j)) ∨
      ((∀ j, LoopCond s dx dy p x y opp j → ¬ (line ≠ [] ∨ 0 < j)) ∧ R = some []) := by
  rcases hR with hR | ⟨j, hj, _, hR⟩ | ⟨hno, hR⟩
  · exact Or.inl hR
  · refine Or.inr (Or.inl ⟨j + 1, LoopCond_cons hb h0 hpn hc ((hopp j).1 hj),
      Or.inr (Nat.succ_pos j), ?_⟩)
    rw [hR, segCells_succ, List.append_assoc, List.singleton_append]
  · refine Or.inr (Or.inr ⟨fun j hj => ?_, hR⟩)
    cases j with
    | zero => exact absurd (LoopCond_zero_cell hj).2 hpn
    | succ j =>
      exact absurd (Or.inl (by simp)) (hno j ((hopp j).2 (LoopCond_tail hj)))

/-- What the loop returns, for any fuel: it runs out of fuel, or it returns `line` extended
by a run that ends on a cell of `p`, or there is no such run and it returns `[]`. -/
theorem checkDirectionLoop_spec (s : GameState) (dx dy : Int) (p : Nat) (hp : p ≠ 0) :
    ∀ (fuel : Nat) (x y : Int) (opp : Option (Option Nat)) (line : List Coord),
      checkDirectionLoop s dx dy p fuel x y opp line = none ∨
      (∃ j, LoopCond s dx dy p x y opp j ∧ (line ≠ [] ∨ 0 < j) ∧
          checkDirectionLoop s dx dy p fuel x y opp line =
            some (line ++ segCells x y dx dy j)) ∨
      ((∀ j, LoopCond s dx dy p x y opp j → ¬ (line ≠ [] ∨ 0 < j)) ∧
          checkDirectionLoop s dx dy p fuel x y opp line = some []) := by
  intro fuel
  induction fuel with
  | zero => intro x y opp line; exact Or.inl rfl
  | succ fuel ih =>
    intro x y opp line
    rw [checkDirectionLoop]
    by_cases hb : inBounds s x y
    · rw [if_pos hb]
      by_cases h0 : cellAt s.board x y = some 0
      · simp only [h0, if_true]
        refine Or.inr (Or.inr ⟨fun j hj => ?_, trivial⟩)
        cases j with
        | zero =>
          have := (LoopCond_zero_cell hj).2
          rw [h0] at this
          exact absurd (Option.some.inj this).symm hp
        | succ j => exact absurd h0 (LoopCond_succ_cell hj).2.1
      · by_cases hpl : cellAt s.board x y = some p
        · have hne : ¬ ((some p : Option Nat) = some 0) := by simpa using hp
          simp only [hpl, hne, if_true, if_false]
          by_cases hl : line.length > 0
          · rw [if_pos hl]
            refine Or.inr (Or.inl ⟨0, ⟨fun i hi => absurd hi (Nat.not_lt_zero i), ?_, ?_⟩,
              Or.inl (List.ne_nil_of_length_pos hl), ?_⟩)
            · simpa using hb
            · simpa using hpl
            · simp [segCells]
          · rw [if_neg hl]
            refine Or.inr (Or.inr ⟨fun j hj hor => ?_, rfl⟩)
            rcases hor with h | h
            · exact hl (List.length_pos.2 h)
            · cases j with
              | zero => exact absurd h (Nat.lt_irrefl 0)
              | succ j => exact absurd hpl (LoopCond_succ_cell hj).2.2.1
        · simp only [h0, hpl, if_false]
          by_cases hm : s.playerMode = 3
          · rw [if_pos hm]
            cases opp with
            | none =>
              exact loop_step_case hb h0 hpl (fun _ => rfl) (fun j => Iff.rfl) (ih _ _ _ _)
            | some c =>
              by_cases hc : cellAt s.board x y = c
              · simp only [hc, if_true]
                have hres := ih (x + dx) (y + dy) (some c) (line ++ [(x, y)])
                have h0c : cellAt s.board x y ≠ some 0 := h0
                refine loop_step_case hb h0 hpl (fun _ => by simp [hc]) (fun j => ?_) hres
                simp
              · simp only [hc, if_false]
                refine Or.inr (Or.inr ⟨fun j hj => ?_, trivial⟩)
                cases j with
                | zero => exact absurd (LoopCond_zero_cell hj).2 hpl
                | succ j =>
                  have := (LoopCond_succ_cell hj).2.2.2 hm
                  exact absurd (by simpa using this) hc
          · rw [if_neg hm]
            exact loop_step_case hb h0 hpl (fun h3 => absurd h3 hm)
              (fun j => ⟨LoopCond_opp_irrel hm, LoopCond_opp_irrel hm⟩) (ih _ _ _ _)
    · rw [if_neg hb]
      refine Or.inr (Or.inr ⟨fun j hj => ?_, rfl⟩)
      cases j with
      | zero => exact absurd (LoopCond_zero_cell hj).1 hb
      | succ j => exact absurd (LoopCond_succ_cell hj).1 hb

theorem dirMeasure_step {s : GameState} {dx dy x y : Int} (hd : (dx, dy) ∈ DIRECTIONS)
    (hb : inBounds s x y) :
    1 ≤ dirMeasure s dx dy x y ∧ dirMeasure s dx dy x y ≤ (s.boardSize : Int) ∧
      dirMeasure s dx dy (x + dx) (y + dy) = dirMeasure s dx dy x y - 1 := by
  obtain ⟨h1, h2, h3, h4⟩ := hb
  simp only [DIRECTIONS, List.mem_cons, Prod.mk.injEq, List.mem_singleton, List.not_mem_nil,
    or_false] at hd
  rcases hd with ⟨rfl, rfl⟩ | ⟨rfl, rfl⟩ | ⟨rfl, rfl⟩ | ⟨rfl, rfl⟩ | ⟨rfl, rfl⟩ | ⟨rfl, rfl⟩ |
    ⟨rfl, rfl⟩ | ⟨rfl, rfl⟩ <;> simp [dirMeasure] <;> omega

/-- Termination of the scan: with more fuel than cells left before the edge, the loop
returns. -/
theorem checkDirectionLoop_ne_none (s : GameState) (dx dy : Int) (p : Nat)
    (hd : (dx, dy) ∈ DIRECTIONS) :
    ∀ (fuel : Nat) (x y : Int) (opp : Option (Option Nat)) (line : List Coord),
      1 ≤ fuel → (inBounds s x y → dirMeasure s dx dy x y + 1 ≤ (fuel : Int)) →
      checkDirectionLoop s dx dy p fuel x y opp line ≠ none := by
  intro fuel
  induction fuel with
  | zero => intro x y opp line h1; exact absurd h1 (by decide)
  | succ fuel ih =>
    intro x y opp line _ h2
    rw [checkDirectionLoop]
    by_cases hb : inBounds s x y
    · have hm := dirMeasure_step hd hb
      have hf := h2 hb
      have ih2 : ∀ opp2 line2,
          checkDirectionLoop s dx dy p fuel (x + dx) (y + dy) opp2 line2 ≠ none := by
        intro opp2 line2
        refine ih _ _ _ _ (by push_cast at hf; omega) (fun _ => ?_)
        rw [hm.2.2]; push_cast at hf; omega
      rw [if_pos hb]
      dsimp only
      split_ifs
      · simp
      · simp
      · simp
      · cases opp with
        | none => exact ih2 _ _
        | some c =>
          dsimp only
          split_ifs
          · exact ih2 _ _
          · simp
      · exact ih2 _ _
    · rw [if_neg hb]; simp

/-- For each of the eight directions `checkDirection` returns. -/
theorem checkDirection_isSome (s : GameState) (row col dx dy : Int) (p : Nat)
    (hd : (dx, dy) ∈ DIRECTIONS) : (checkDirection s row col dx dy p).isSome = true := by
  rw [Option.isSome_iff_ne_none]
  refine checkDirectionLoop_ne_none s dx dy p hd _ _ _ _ _ (Nat.succ_pos _) (fun hb => ?_)
  have := (dirMeasure_step hd hb).2.1
  push_cast; omega

theorem runCells_eq_segCells (row col dx dy : Int) (k : Nat) :
    runCells row col dx dy k = segCells (row + dx) (col + dy) dx dy k := by
  simp only [runCells, segCells]
  apply List.map_congr_left
  intro i _
  congr 1 <;> ring

theorem runCells_length (row col dx dy : Int) (k : Nat) :
    (runCells row col dx dy k).length = k := by
  simp [runCells]

/-- A capturable run from `(row, col)` is a run of the loop entered at the first step. -/
theorem Capturable_iff_LoopCond (s : GameState) (row col dx dy : Int) (p k : Nat) :
    Capturable s row col dx dy p k ↔
      1 ≤ k ∧ LoopCond s dx dy p (row + dx) (col + dy) none k := by
  have e : ∀ (a d : Int) (i : Nat), a + ((i + 1 : Nat) : Int) * d = a + d + (i : Int) * d := by
    intro a d i; push_cast; ring
  have e1 : ∀ (a d : Int), a + ((1 : Nat) : Int) * d = a + d := by
    intro a d; push_cast; ring
  unfold Capturable LoopCond stepInBounds stepCell
  simp only [e, e1, Option.getD_none]
  constructor
  · rintro ⟨hk, h1, h2, h3⟩
    exact ⟨hk, fun i hi => ⟨(h1 i hi).1, (h1 i hi).2.1, (h1 i hi).2.2,
      fun hm => by simpa using h2 hm i hi⟩, h3⟩
  · rintro ⟨hk, h1, h3⟩
    exact ⟨hk, fun i hi => ⟨(h1 i hi).1, (h1 i hi).2.1, (h1 i hi).2.2.1⟩,
      fun hm i hi => by simpa using (h1 i hi).2.2.2 hm, h3⟩

/-- What `checkDirection` returns in one of the eight directions: the capturable run if
there is one, the empty list otherwise. -/
theorem checkDirection_cases (s : GameState) (row col dx dy : Int) (p : Nat)
    (hd : (dx, dy) ∈ DIRECTIONS) (hp : p ≠ 0) :
    (∃ k, Capturable s row col dx dy p k ∧
        checkDirection s row col dx dy p = some (runCells row col dx dy k)) ∨
    ((∀ k, ¬ Capturable s row col dx dy p k) ∧ checkDirection s row col dx dy p = some []) := by
  have hsome := checkDirection_isSome s row col dx dy p hd
  rw [Option.isSome_iff_ne_none] at hsome
  unfold checkDirection at hsome ⊢
  rcases checkDirectionLoop_spec s dx dy p hp (s.boardSize + 1) (row + dx) (col + dy) none []
    with h | ⟨j, hj, hpos, h⟩ | ⟨hno, h⟩
  · exact absurd h hsome
  · have hj1 : 1 ≤ j := by
      rcases hpos with h | h
      · exact absurd rfl h
      · exact h
    refine Or.inl ⟨j, (Capturable_iff_LoopCond s row col dx dy p j).2 ⟨hj1, hj⟩, ?_⟩
    rw [h, runCells_eq_segCells, List.nil_append]
  · refine Or.inr ⟨fun k hk => ?_, h⟩
    have := (Capturable_iff_LoopCond s row col dx dy p k).1 hk
    exact hno k this.2 (Or.inr this.1)

theorem Capturable_unique {s : GameState} {row col dx dy : Int} {p j k : Nat}
    (hj : Capturable s row col dx dy p j) (hk : Capturable s row col dx dy p k) : j = k :=
  LoopCond_unique ((Capturable_iff_LoopCond s row col dx dy p j).1 hj).2
    ((Capturable_iff_LoopCond s row col dx dy p k).1 hk).2

/-- C1: for every board, mode, origin, direction among the eight and player `p` (a non-zero
id), `checkDirection` returns the cells at steps `1..k`, in that order, exactly when
the run of length `k ≥ 1` is capturable (on the grid, not Empty, not owned by `p`, in
3-player mode all of one colour, and followed on the grid by a cell of `p`); when no run
is capturable it returns the empty list.  In either case it returns. -/
theorem checkDirection_characterisation (s : GameState) (row col dx dy : Int) (p : Nat)
    (hd : (dx, dy) ∈ DIRECTIONS) (hp : p ≠ 0) :
    (∀ k, Capturable s row col dx dy p k ↔
      1 ≤ k ∧ checkDirection s row col dx dy p = some (runCells row col dx dy k)) ∧
    ((¬ ∃ k, Capturable s row col dx dy p k) → checkDirection s row col dx dy p = some []) := by
  rcases checkDirection_cases s row col dx dy p hd hp with ⟨j, hj, hres⟩ | ⟨hno, hres⟩
  · refine ⟨fun k => ⟨fun hk => ?_, fun hk => ?_⟩, fun h => absurd ⟨j, hj⟩ h⟩
    · rw [← Capturable_unique hj hk]; exact ⟨hj.1, hres⟩
    · have hl := congrArg (fun o => (o.getD []).length) (hres.symm.trans hk.2)
      simp only [Option.getD_some, runCells_length] at hl
      rw [← hl]; exact hj
  · refine ⟨fun k => ⟨fun hk => absurd hk (hno k), fun hk => ?_⟩, fun _ => hres⟩
    have hl := congrArg (fun o => (o.getD []).length) (hres.symm.trans hk.2)
    simp only [Option.getD_some, runCells_length, List.length_nil] at hl
    omega

/-! ## Legality and enumeration -/

theorem foldl_push_if {α β : Type} (P : α → Prop) [DecidablePred P] (f : α → β)
    (l : List α) (init : List β) :
    l.foldl (fun acc a => if P a then acc ++ [f a] else acc) init =
      init ++ (l.filter (fun a => decide (P a))).map f := by
  induction l generalizing init with
  | nil => simp
  | cons a l ih =>
    rw [List.foldl_cons, ih]
    by_cases h : P a <;> simp [h, List.filter_cons]

theorem foldl_append_eq_flatMap {α β : Type} (g : α → List β) (l : List α) (init : List β) :
    l.foldl (fun acc a => acc ++ g a) init = init ++ l.flatMap g := by
  induction l generalizing init with
  | nil => simp
  | cons a l ih => rw [List.foldl_cons, ih]; simp [List.flatMap_cons]

/-- The two loops of `getValidMoves` as a comprehension, in row-major order. -/
theorem getValidMoves_eq (s : GameState) (p : Nat) :
    getValidMoves s p =
      (List.range s.boardSize).flatMap (fun (row : Nat) =>
        ((List.range s.boardSize).filter (fun (col : Nat) =>
          decide (cellAt s.board row col = some 0 ∧ isValidMove s row col p = true))).map
          (fun (col : Nat) => ((row : Int), (col : Int)))) := by
  unfold getValidMoves
  have h : ∀ (moves : List Coord) (row : Nat),
      (List.range s.boardSize).foldl
        (fun (moves : List Coord) (col : Nat) =>
          if cellAt s.board row col = some 0 ∧ isValidMove s row col p = true then
            moves ++ [((row : Int), (col : Int))]
          else moves) moves =
      moves ++ ((List.range s.boardSize).filter (fun (col : Nat) =>
          decide (cellAt s.board row col = some 0 ∧ isValidMove s row col p = true))).map
          (fun (col : Nat) => ((row : Int), (col : Int))) := by
    intro moves row
    exact foldl_push_if
      (fun col : Nat => cellAt s.board row col = some 0 ∧ isValidMove s row col p = true)
      (fun col : Nat => ((row : Int), (col : Int))) _ moves
  simp only [h]
  rw [foldl_append_eq_flatMap, List.nil_append]

theorem isValidMove_cell {s : GameState} {row col : Int} {p : Nat}
    (h : isValidMove s row col p = true) : cellAt s.board row col = some 0 := by
  unfold isValidMove at h
  by_contra hc
  rw [if_pos hc] at h
  exact absurd h (by decide)

theorem mem_getValidMoves (s : GameState) (p : Nat) (row col : Int) :
    (row, col) ∈ getValidMoves s p ↔ inBounds s row col ∧ isValidMove s row col p = true := by
  rw [getValidMoves_eq]
  simp only [List.mem_flatMap, List.mem_map, List.mem_filter, List.mem_range, decide_eq_true_eq,
    Prod.mk.injEq]
  constructor
  · rintro ⟨r, hr, c, ⟨hc, _, hv⟩, rfl, rfl⟩
    refine ⟨⟨?_, ?_, ?_, ?_⟩, hv⟩ <;> omega
  · rintro ⟨⟨h1, h2, h3, h4⟩, hv⟩
    refine ⟨row.toNat, by omega, col.toNat, ⟨by omega, ?_, ?_⟩, by omega, by omega⟩
    · rw [Int.toNat_of_nonneg h1, Int.toNat_of_nonneg h3]; exact isValidMove_cell hv
    · rw [Int.toNat_of_nonneg h1, Int.toNat_of_nonneg h3]; exact hv

theorem getValidMoves_nodup (s : GameState) (p : Nat) : (getValidMoves s p).Nodup := by
  rw [getValidMoves_eq, List.nodup_flatMap]
  constructor
  · intro row _
    refine List.Nodup.map ?_ ((List.nodup_range _).filter _)
    intro a b hab
    simpa using hab
  · refine List.Pairwise.imp_of_mem ?_ (List.nodup_range _)
    intro a b _ _ hab
    simp only [Function.onFun]
    rw [List.disjoint_left]
    intro c h1 h2
    simp only [List.mem_map] at h1 h2
    obtain ⟨_, _, rfl⟩ := h1
    obtain ⟨_, _, h⟩ := h2
    simp only [Prod.mk.injEq] at h
    exact hab (by omega)

theorem isValidMove_eq_true_iff (s : GameState) (row col : Int) (player : Nat) :
    isValidMove s row col player = true ↔
      cellAt s.board row col = some 0 ∧ getFlippableDiscs s row col player ≠ [] := by
  unfold isValidMove
  by_cases h : cellAt s.board row col = some 0
  · simp [h, List.length_pos]
  · simp [h]

/-- C2: `isValidMove(row, col, player)` is true if and only if the cell `(row, col)` is Empty
and `getFlippableDiscs(row, col, player)` is non-empty. -/
theorem isValidMove_iff_empty_and_captures (s : GameState) (row col : Int) (player : Nat) :
    isValidMove s row col player = true ↔
      cellAt s.board row col = some 0 ∧ getFlippableDiscs s row col player ≠ [] :=
  isValidMove_eq_true_iff s row col player

/-- C3: `getValidMoves(p)` contains `(row, col)` if and only if `(row, col)` is on the grid and
`isValidMove(row, col, p)` holds, and it has no duplicates. -/
theorem getValidMoves_spec (s : GameState) (p : Nat) :
    (∀ row col : Int, (row, col) ∈ getValidMoves s p ↔
      (0 ≤ row ∧ row < (s.boardSize : Int) ∧ 0 ≤ col ∧ col < (s.boardSize : Int)) ∧
        isValidMove s row col p = true) ∧
    (getValidMoves s p).Nodup :=
  ⟨fun row col => mem_getValidMoves s p row col, getValidMoves_nodup s p⟩

/-! ## Reads and writes of the board -/

/-- Reading after a write: the written position, when it exists, holds the new value and
every other position is unchanged. -/
theorem cellAt_setCell (b : List (List Nat)) (x y : Int) (v : Nat) (x2 y2 : Int) :
    cellAt (setCell b x y v) x2 y2 =
      if x2 = x ∧ y2 = y ∧ (cellAt b x y).isSome = true then some v else cellAt b x2 y2 := by
  unfold setCell
  by_cases hneg : x < 0 ∨ y < 0
  · have : cellAt b x y = none := by unfold cellAt; rw [if_pos hneg]
    simp [hneg, this]
  · rw [if_neg hneg]
    have hxy : cellAt b x y = match b[x.toNat]? with
        | none => none
        | some r => r[y.toNat]? := by unfold cellAt; rw [if_neg hneg]
    cases hr : b[x.toNat]? with
    | none =>
      rw [hr] at hxy
      simp [hxy]
    | some r =>
      rw [hr] at hxy
      simp only at hxy ⊢
      have hlt : x.toNat < b.length := by
        by_contra hc
        rw [List.getElem?_eq_none (Nat.le_of_not_lt hc)] at hr
        exact absurd hr (by simp)
      rw [hxy]
      unfold cellAt
      by_cases hneg2 : x2 < 0 ∨ y2 < 0
      · rw [if_pos hneg2, if_pos hneg2]
        have : ¬ (x2 = x ∧ y2 = y ∧ (r[y.toNat]?).isSome = true) := by
          rintro ⟨rfl, rfl, _⟩; exact hneg hneg2
        rw [if_neg this]
      · rw [if_neg hneg2, if_neg hneg2, List.getElem?_set]
        by_cases hx : x.toNat = x2.toNat
        · have hxe : x2 = x := by omega
          subst hxe
          rw [if_pos rfl, if_pos hlt, hr]
          simp only [List.getElem?_set, true_and]
          by_cases hy : y.toNat = y2.toNat
          · have hye : y2 = y := by omega
            subst hye
            by_cases hl : y2.toNat < r.length
            · simp [hl]
            · simp [hl, List.getElem?_eq_none (Nat.le_of_not_lt hl)]
          · have hye : ¬ y2 = y := by omega
            simp [hy, hye]
        · have hxe : ¬ x2 = x := by omega
          simp [hx, hxe]

/-- On a well-formed state every cell of the grid can be read. -/
theorem cellAt_isSome_of_inBounds {s : GameState} (hwf : WellFormed s) {x y : Int}
    (hb : inBounds s x y) : (cellAt s.board x y).isSome = true := by
  obtain ⟨h1, h2, h3, h4⟩ := hb
  unfold cellAt
  rw [if_neg (by omega)]
  have hx : x.toNat < s.board.length := by rw [hwf.1]; omega
  rw [List.getElem?_eq_getElem hx]
  have hy : y.toNat < (s.board[x.toNat]).length := by
    rw [hwf.2 _ (List.getElem_mem hx)]; omega
  simp only
  rw [List.getElem?_eq_getElem hy]
  rfl

/-! ## The capture set -/

/-- The loop of `getFlippableDiscs` concatenates the runs of the eight directions. -/
theorem getFlippableDiscs_eq (s : GameState) (row col : Int) (p : Nat) :
    getFlippableDiscs s row col p =
      DIRECTIONS.flatMap (fun (d : Int × Int) => (checkDirection s row col d.1 d.2 p).getD []) := by
  unfold getFlippableDiscs
  have h : ∀ (toFlip : List Coord) (d : Int × Int),
      (if ((checkDirection s row col d.1 d.2 p).getD []).length > 0 then
          toFlip ++ (checkDirection s row col d.1 d.2 p).getD []
        else toFlip) = toFlip ++ (checkDirection s row col d.1 d.2 p).getD [] := by
    intro toFlip d
    by_cases hl : ((checkDirection s row col d.1 d.2 p).getD []).length > 0
    · rw [if_pos hl]
    · rw [if_neg hl]
      have : (checkDirection s row col d.1 d.2 p).getD [] = [] :=
        List.eq_nil_of_length_eq_zero (Nat.eq_zero_of_not_pos hl)
      rw [this, List.append_nil]
  simp only [h]
  rw [foldl_append_eq_flatMap, List.nil_append]

theorem mem_getFlippableDiscs (s : GameState) (row col : Int) (p : Nat) (c : Coord) :
    c ∈ getFlippableDiscs s row col p ↔
      ∃ d ∈ DIRECTIONS, c ∈ (checkDirection s row col d.1 d.2 p).getD [] := by
  rw [getFlippableDiscs_eq, List.mem_flatMap]

/-- With player id `0` the scan never returns a run: an Empty cell stops it first. -/
theorem checkDirectionLoop_player_zero (s : GameState) (dx dy : Int) :
    ∀ (fuel : Nat) (x y : Int) (opp : Option (Option Nat)) (line : List Coord),
      (checkDirectionLoop s dx dy 0 fuel x y opp line).getD [] = [] := by
  intro fuel
  induction fuel with
  | zero => intro x y opp line; rfl
  | succ fuel ih =>
    intro x y opp line
    rw [checkDirectionLoop]
    dsimp only
    split_ifs <;> first
      | rfl
      | exact ih _ _ _ _
      | (cases opp with
          | none => exact ih _ _ _ _
          | some c => dsimp only; split_ifs <;> first | rfl | exact ih _ _ _ _)

theorem getFlippableDiscs_player_zero (s : GameState) (row col : Int) :
    getFlippableDiscs s row col 0 = [] := by
  rw [getFlippableDiscs_eq]
  simp only [checkDirection, checkDirectionLoop_player_zero]
  simp

theorem isValidMove_player_ne_zero {s : GameState} {row col : Int} {p : Nat}
    (h : isValidMove s row col p = true) : p ≠ 0 := by
  rintro rfl
  have := (isValidMove_eq_true_iff s row col 0).1 h
  exact this.2 (getFlippableDiscs_player_zero s row col)

/-- The scan depends on the state only through `boardSize`, `playerMode` and the cells it
walks over. -/
theorem checkDirectionLoop_congr (s s2 : GameState) (dx dy : Int) (p : Nat)
    (hN : s2.boardSize = s.boardSize) (hM : s2.playerMode = s.playerMode) :
    ∀ (fuel : Nat) (x y : Int) (opp : Option (Option Nat)) (line : List Coord),
      (∀ i : Nat, cellAt s2.board (x + (i : Int) * dx) (y + (i : Int) * dy) =
        cellAt s.board (x + (i : Int) * dx) (y + (i : Int) * dy)) →
      checkDirectionLoop s2 dx dy p fuel x y opp line =
        checkDirectionLoop s dx dy p fuel x y opp line := by
  intro fuel
  induction fuel with
  | zero => intro x y opp line _; rfl
  | succ fuel ih =>
    intro x y opp line hcells
    have hb : inBounds s2 x y ↔ inBounds s x y := by unfold inBounds; rw [hN]
    have h0 : cellAt s2.board x y = cellAt s.board x y := by simpa using hcells 0
    have ih2 : ∀ (opp2 : Option (Option Nat)) (line2 : List Coord),
        checkDirectionLoop s2 dx dy p fuel (x + dx) (y + dy) opp2 line2 =
          checkDirectionLoop s dx dy p fuel (x + dx) (y + dy) opp2 line2 := by
      intro opp2 line2
      refine ih _ _ _ _ (fun i => ?_)
      have := hcells (i + 1)
      have e : ∀ (a d : Int), a + ((i + 1 : Nat) : Int) * d = a + d + (i : Int) * d := by
        intro a d; push_cast; ring
      rwa [e, e] at this
    rw [checkDirectionLoop, checkDirectionLoop]
    simp only [hb, h0, hM, ih2]

/-- No scan from `(row, col)` in one of the eight directions comes back to `(row, col)`. -/
theorem step_ne_origin {dx dy : Int} (hd : (dx, dy) ∈ DIRECTIONS) (row col : Int) (i : Nat) :
    ¬ (row + dx + (i : Int) * dx = row ∧ col + dy + (i : Int) * dy = col) := by
  simp only [DIRECTIONS, List.mem_cons, Prod.mk.injEq, List.mem_singleton, List.not_mem_nil,
    or_false] at hd
  rcases hd with ⟨rfl, rfl⟩ | ⟨rfl, rfl⟩ | ⟨rfl, rfl⟩ | ⟨rfl, rfl⟩ | ⟨rfl, rfl⟩ | ⟨rfl, rfl⟩ |
    ⟨rfl, rfl⟩ | ⟨rfl, rfl⟩ <;> omega

/-- Writing the origin cell does not change what a scan from it returns. -/
theorem checkDirection_setCell_origin (s : GameState) (row col : Int) (v : Nat) {dx dy : Int}
    (hd : (dx, dy) ∈ DIRECTIONS) (p : Nat) :
    checkDirection { s with board := setCell s.board row col v } row col dx dy p =
      checkDirection s row col dx dy p := by
  unfold checkDirection
  refine checkDirectionLoop_congr s { s with board := setCell s.board row col v } dx dy p rfl rfl
    (s.boardSize + 1) (row + dx) (col + dy) none [] (fun i => ?_)
  show cellAt (setCell s.board row col v) _ _ = _
  rw [cellAt_setCell, if_neg]
  rintro ⟨h1, h2, _⟩
  exact step_ne_origin hd row col i ⟨h1, h2⟩

/-- The capture set of a move is the same before and after the mover's disc is written at
the origin. -/
theorem getFlippableDiscs_setCell_origin (s : GameState) (row col : Int) (v p : Nat) :
    getFlippableDiscs { s with board := setCell s.board row col v } row col p =
      getFlippableDiscs s row col p := by
  rw [getFlippableDiscs_eq, getFlippableDiscs_eq]
  apply List.flatMap_congr
  intro d hd
  rw [checkDirection_setCell_origin s row col v (show (d.1, d.2) ∈ DIRECTIONS from hd)]

/-- Every captured cell is on the grid, is not Empty, is not owned by the mover and is not
the origin. -/
theorem getFlippableDiscs_cell {s : GameState} {row col : Int} {p : Nat} (hp : p ≠ 0)
    {c : Coord} (hc : c ∈ getFlippableDiscs s row col p) :
    inBounds s c.1 c.2 ∧ cellAt s.board c.1 c.2 ≠ some 0 ∧ cellAt s.board c.1 c.2 ≠ some p ∧
      c ≠ (row, col) := by
  obtain ⟨d, hd, hmem⟩ := (mem_getFlippableDiscs s row col p c).1 hc
  have hd2 : (d.1, d.2) ∈ DIRECTIONS := hd
  rcases checkDirection_cases s row col d.1 d.2 p hd2 hp with ⟨k, hk, hres⟩ | ⟨_, hres⟩
  · rw [hres, Option.getD_some] at hmem
    simp only [runCells, List.mem_map, List.mem_range] at hmem
    obtain ⟨i, hi, rfl⟩ := hmem
    have h := hk.2.1 i hi
    simp only [stepInBounds, stepCell, Nat.cast_add, Nat.cast_one] at h
    refine ⟨h.1, h.2.1, h.2.2, fun he => ?_⟩
    simp only [Prod.mk.injEq] at he
    exact step_ne_origin hd2 row col i ⟨by linarith [he.1], by linarith [he.2]⟩
  · rw [hres] at hmem
    exact absurd hmem (by simp)

/-! ## Applying a move -/

theorem flipDiscs_fields (s : GameState) (l : List Coord) :
    (flipDiscs s l).boardSize = s.boardSize ∧ (flipDiscs s l).playerMode = s.playerMode ∧
      (flipDiscs s l).currentPlayer = s.currentPlayer ∧ (flipDiscs s l).scores = s.scores ∧
      (flipDiscs s l).gameActive = s.gameActive ∧ (flipDiscs s l).validMoves = s.validMoves := by
  unfold flipDiscs
  induction l generalizing s with
  | nil => simp
  | cons d l ih =>
    rw [List.foldl_cons]
    exact ih _

/-- The board after `flipDiscs`: the listed cells that exist hold the current player, the
others are unchanged. -/
theorem cellAt_flipDiscs (s : GameState) (l : List Coord) (x y : Int) :
    cellAt (flipDiscs s l).board x y =
      if (x, y) ∈ l ∧ (cellAt s.board x y).isSome = true then some s.currentPlayer
      else cellAt s.board x y := by
  unfold flipDiscs
  induction l generalizing s with
  | nil => simp
  | cons d l ih =>
    rw [List.foldl_cons, ih]
    simp only [cellAt_setCell, List.mem_cons]
    by_cases hd : (x, y) = d
    · subst hd
      by_cases hs : (cellAt s.board x y).isSome = true
      · simp [hs]
      · simp [hs]
    · have hd2 : ¬ (x = d.1 ∧ y = d.2 ∧ (cellAt s.board d.1 d.2).isSome = true) := by
        rintro ⟨h1, h2, _⟩
        exact hd (by rw [h1, h2])
      simp [hd, hd2]

theorem calculateScore_fields (s : GameState) :
    (calculateScore s).board = s.board ∧ (calculateScore s).boardSize = s.boardSize ∧
      (calculateScore s).playerMode = s.playerMode ∧
      (calculateScore s).currentPlayer = s.currentPlayer ∧
      (calculateScore s).gameActive = s.gameActive ∧
      (calculateScore s).validMoves = s.validMoves :=
  ⟨rfl, rfl, rfl, rfl, rfl, rfl⟩

theorem switchTurnLoop_fields (s : GameState) (m : Nat) :
    ∀ (n q : Nat), (switchTurnLoop s m n q).board = s.board ∧
      (switchTurnLoop s m n q).boardSize = s.boardSize ∧
      (switchTurnLoop s m n q).playerMode = s.playerMode ∧
      (switchTurnLoop s m n q).scores = s.scores := by
  intro n
  induction n with
  | zero => intro q; exact ⟨rfl, rfl, rfl, rfl⟩
  | succ n ih =>
    intro q
    rw [switchTurnLoop]
    split_ifs
    · exact ⟨rfl, rfl, rfl, rfl⟩
    · exact ih _

theorem switchTurn_fields (s : GameState) :
    (switchTurn s).board = s.board ∧ (switchTurn s).boardSize = s.boardSize ∧
      (switchTurn s).playerMode = s.playerMode ∧ (switchTurn s).scores = s.scores :=
  switchTurnLoop_fields s _ _ _

/-- An accepted click: the state the call returns, with the capture set computed before the
disc is placed. -/
theorem handleCellClick_accept (s : GameState) (row col : Int) (hact : s.gameActive = true)
    (hv : isValidMove s row col s.currentPlayer = true) :
    handleCellClick s row col =
      updateValidMoves (switchTurn (calculateScore
        (flipDiscs { s with board := setCell s.board row col s.currentPlayer }
          (getFlippableDiscs s row col s.currentPlayer)))) := by
  unfold handleCellClick
  rw [if_neg (by simp [hact]), if_neg (by simp [hv])]
  dsimp only
  rw [getFlippableDiscs_setCell_origin]

theorem handleCellClick_accept_board (s : GameState) (row col : Int)
    (hact : s.gameActive = true) (hv : isValidMove s row col s.currentPlayer = true) :
    (handleCellClick s row col).board =
      (flipDiscs { s with board := setCell s.board row col s.currentPlayer }
          (getFlippableDiscs s row col s.currentPlayer)).board := by
  rw [handleCellClick_accept s row col hact hv]
  show (switchTurn _).board = _
  rw [(switchTurn_fields _).1, (calculateScore_fields _).1]

/-- The board after an accepted move, cell by cell. -/
theorem cellAt_handleCellClick (s : GameState) (row col : Int) (hwf : WellFormed s)
    (hact : s.gameActive = true) (hv : isValidMove s row col s.currentPlayer = true)
    (x y : Int) :
    cellAt (handleCellClick s row col).board x y =
      if (x, y) = (row, col) ∨ (x, y) ∈ getFlippableDiscs s row col s.currentPlayer then
        some s.currentPlayer
      else cellAt s.board x y := by
  rw [handleCellClick_accept_board s row col hact hv, cellAt_flipDiscs]
  simp only [cellAt_setCell]
  have hcell := isValidMove_cell hv
  have hp := isValidMove_player_ne_zero hv
  by_cases ho : (x, y) = (row, col)
  · simp only [Prod.mk.injEq] at ho
    obtain ⟨rfl, rfl⟩ := ho
    simp [hcell]
  · have ho2 : ¬ (x = row ∧ y = col ∧ (cellAt s.board row col).isSome = true) := by
      rintro ⟨h1, h2, _⟩
      exact ho (by rw [h1, h2])
    by_cases hm : (x, y) ∈ getFlippableDiscs s row col s.currentPlayer
    · have hsome := cellAt_isSome_of_inBounds hwf (getFlippableDiscs_cell hp hm).1
      simp only [ho2, if_false, hm, hsome, and_self, if_true, ho, or_true]
    · simp [ho, ho2, hm]

/-- C4: for every Active state on a well-formed board and every move `(row, col)` legal for
the current player `p`, after `handleCellClick(row, col)` the board holds `p` at `(row, col)`
and at every cell of the move's capture set, and every other cell holds the value it held
before the move. -/
theorem handleCellClick_frame (s : GameState) (row col : Int) (hwf : WellFormed s)
    (hact : s.gameActive = true) (hv : isValidMove s row col s.currentPlayer = true) :
    cellAt (handleCellClick s row col).board row col = some s.currentPlayer ∧
    (∀ c ∈ getFlippableDiscs s row col s.currentPlayer,
      cellAt (handleCellClick s row col).board c.1 c.2 = some s.currentPlayer) ∧
    (∀ x y : Int, (x, y) ≠ (row, col) → (x, y) ∉ getFlippableDiscs s row col s.currentPlayer →
      cellAt (handleCellClick s row col).board x y = cellAt s.board x y) := by
  refine ⟨?_, fun c hc => ?_, fun x y h1 h2 => ?_⟩
  · rw [cellAt_handleCellClick s row col hwf hact hv, if_pos (Or.inl rfl)]
  · rw [cellAt_handleCellClick s row col hwf hact hv, if_pos (Or.inr hc)]
  · rw [cellAt_handleCellClick s row col hwf hact hv, if_neg]
    rintro (h | h)
    · exact h1 h
    · exact h2 h

theorem handleCellClick_reject (s : GameState) (row col : Int)
    (h : s.gameActive = false ∨ isValidMove s row col s.currentPlayer = false) :
    handleCellClick s row col = s := by
  unfold handleCellClick
  rcases h with h | h
  · simp [h]
  · simp [h]

/-- C5: when the game is not Active, or the move is not legal for the current player (the
cell is occupied or the move captures nothing), `handleCellClick(row, col)` is a no-op: the
state it returns is the state it was given, so the board, the scores, `currentPlayer`,
`validMoves` and `gameActive` are all unchanged. -/
theorem handleCellClick_noop (s : GameState) (row col : Int)
    (h : s.gameActive = false ∨ isValidMove s row col s.currentPlayer = false) :
    handleCellClick s row col = s ∧
    (handleCellClick s row col).board = s.board ∧
    (handleCellClick s row col).scores = s.scores ∧
    (handleCellClick s row col).currentPlayer = s.currentPlayer ∧
    (handleCellClick s row col).validMoves = s.validMoves ∧
    (handleCellClick s row col).gameActive = s.gameActive := by
  rw [handleCellClick_reject s row col h]
  exact ⟨rfl, rfl, rfl, rfl, rfl, rfl⟩

/-! ## Scores -/

theorem foldl_measure {α β : Type} (m : β → Nat) (w : α → Nat) (f : β → α → β)
    (h : ∀ b a, m (f b a) = m b + w a) (l : List α) (init : β) :
    m (l.foldl f init) = m init + (l.map w).sum := by
  induction l generalizing init with
  | nil => simp
  | cons a l ih => rw [List.foldl_cons, ih, h]; simp [Nat.add_assoc]

theorem list_sum_map_range (f : Nat → Nat) (n : Nat) :
    ((List.range n).map f).sum = ∑ i in Finset.range n, f i := by
  induction n with
  | zero => simp
  | succ n ih => rw [List.sum_range_succ, Finset.sum_range_succ, ih]

theorem total_incScore_step (sc : Scores) (o : Option Nat) :
    Scores.total (match o with
      | some value => if value ≠ 0 then incScore sc value else sc
      | none => sc) = Scores.total sc + tileCount o := by
  cases o with
  | none => simp [tileCount]
  | some v =>
    by_cases h1 : v = 1
    · subst h1; simp [incScore, tileCount, Scores.total]; omega
    · by_cases h2 : v = 2
      · subst h2; simp [incScore, tileCount, Scores.total]; omega
      · by_cases h3 : v = 3
        · subst h3; simp [incScore, tileCount, Scores.total]; omega
        · by_cases h0 : v = 0
          · subst h0; simp [tileCount]
          · simp [incScore, tileCount, h0, h1, h2, h3]

/-- The sum of the scores that `calculateScore` computes is the number of cells of the grid
holding `1`, `2` or `3`. -/
theorem calculateScore_total (s : GameState) :
    (calculateScore s).scores.total =
      ∑ r in Finset.range s.boardSize, ∑ c in Finset.range s.boardSize,
        tileCount (cellAt s.board r c) := by
  unfold calculateScore
  dsimp only
  rw [foldl_measure Scores.total
    (fun (row : Nat) => ∑ c in Finset.range s.boardSize, tileCount (cellAt s.board row c))]
  · rw [list_sum_map_range]
    simp [Scores.total]
  · intro sc row
    rw [foldl_measure Scores.total (fun (col : Nat) => tileCount (cellAt s.board row col))]
    · rw [list_sum_map_range]
    · intro sc2 col
      exact total_incScore_step sc2 _

/-- On a well-formed state a cell that can be read is on the grid. -/
theorem inBounds_of_cellAt_some {s : GameState} (hwf : WellFormed s) {x y : Int} {v : Nat}
    (h : cellAt s.board x y = some v) : inBounds s x y := by
  unfold cellAt at h
  by_cases hneg : x < 0 ∨ y < 0
  · rw [if_pos hneg] at h; exact absurd h (by simp)
  · rw [if_neg hneg] at h
    cases hr : s.board[x.toNat]? with
    | none => rw [hr] at h; exact absurd h (by simp)
    | some r =>
      rw [hr] at h
      simp only at h
      obtain ⟨hx, hxr⟩ := List.getElem?_eq_some.1 hr
      obtain ⟨hy, _⟩ := List.getElem?_eq_some.1 h
      have hlen : r.length = s.boardSize := hwf.2 r (hxr ▸ List.getElem_mem hx)
      rw [hwf.1] at hx
      rw [hlen] at hy
      unfold inBounds
      omega

/-- On a board with valid cells every value read is at most `3`. -/
theorem cellAt_le_three {s : GameState} (hvc : ValidCells s) {x y : Int} {v : Nat}
    (h : cellAt s.board x y = some v) : v ≤ 3 := by
  unfold cellAt at h
  by_cases hneg : x < 0 ∨ y < 0
  · rw [if_pos hneg] at h; exact absurd h (by simp)
  · rw [if_neg hneg] at h
    cases hr : s.board[x.toNat]? with
    | none => rw [hr] at h; exact absurd h (by simp)
    | some r =>
      rw [hr] at h
      simp only at h
      obtain ⟨hx, hxr⟩ := List.getElem?_eq_some.1 hr
      obtain ⟨hy, hyv⟩ := List.getElem?_eq_some.1 h
      exact hvc r (hxr ▸ List.getElem_mem hx) v (hyv ▸ List.getElem_mem hy)

theorem tileCount_some_of_pos {v : Nat} (h0 : v ≠ 0) (h3 : v ≤ 3) : tileCount (some v) = 1 := by
  have : v = 1 ∨ v = 2 ∨ v = 3 := by omega
  rcases this with rfl | rfl | rfl <;> simp [tileCount]

/-- One accepted move adds exactly one tile to the grid. -/
theorem tileCount_handleCellClick (s : GameState) (row col : Int) (hwf : WellFormed s)
    (hvc : ValidCells s) (hcur : 1 ≤ s.currentPlayer ∧ s.currentPlayer ≤ 3)
    (hact : s.gameActive = true) (hv : isValidMove s row col s.currentPlayer = true) :
    (∑ r in Finset.range s.boardSize, ∑ c in Finset.range s.boardSize,
        tileCount (cellAt (handleCellClick s row col).board r c)) =
      (∑ r in Finset.range s.boardSize, ∑ c in Finset.range s.boardSize,
        tileCount (cellAt s.board r c)) + 1 := by
  have hcell := isValidMove_cell hv
  have hp := isValidMove_player_ne_zero hv
  obtain ⟨hr0, hr1, hc0, hc1⟩ := inBounds_of_cellAt_some hwf hcell
  have hnew : tileCount (some s.currentPlayer) = 1 := tileCount_some_of_pos hp hcur.2
  have hpt : ∀ r c : Nat,
      tileCount (cellAt (handleCellClick s row col).board r c) =
        tileCount (cellAt s.board r c) +
          (if r = row.toNat then (if c = col.toNat then 1 else 0) else 0) := by
    intro r c
    rw [cellAt_handleCellClick s row col hwf hact hv]
    by_cases ho : ((r : Int), (c : Int)) = (row, col)
    · simp only [Prod.mk.injEq] at ho
      have h1 : r = row.toNat := by omega
      have h2 : c = col.toNat := by omega
      rw [if_pos (Or.inl (by rw [ho.1, ho.2])), if_pos h1, if_pos h2, hnew, ho.1, ho.2, hcell]
      simp [tileCount]
    · have h12 : ¬ (r = row.toNat ∧ c = col.toNat) := by
        rintro ⟨h1, h2⟩
        apply ho
        rw [h1, h2, Int.toNat_of_nonneg hr0, Int.toNat_of_nonneg hc0]
      have hz : (if r = row.toNat then (if c = col.toNat then 1 else 0) else 0) = 0 := by
        by_cases h1 : r = row.toNat
        · rw [if_pos h1, if_neg (fun h2 => h12 ⟨h1, h2⟩)]
        · rw [if_neg h1]
      rw [hz, Nat.add_zero]
      by_cases hm : ((r : Int), (c : Int)) ∈ getFlippableDiscs s row col s.currentPlayer
      · rw [if_pos (Or.inr hm), hnew]
        have hprops := getFlippableDiscs_cell hp hm
        have hsome := cellAt_isSome_of_inBounds hwf hprops.1
        obtain ⟨v, hv2⟩ := Option.isSome_iff_exists.1 hsome
        have hv0 : v ≠ 0 := by
          intro h; apply hprops.2.1; rw [hv2, h]
        have hv2b : cellAt s.board (r : Int) (c : Int) = some v := hv2
        rw [hv2b, tileCount_some_of_pos hv0 (cellAt_le_three hvc hv2)]
      · rw [if_neg]
        rintro (h | h)
        · exact ho h
        · exact hm h
  simp only [hpt, Finset.sum_add_distrib]
  congr 1
  have hrow : row.toNat ∈ Finset.range s.boardSize := by rw [Finset.mem_range]; omega
  have hcol : col.toNat ∈ Finset.range s.boardSize := by rw [Finset.mem_range]; omega
  simp [Finset.sum_ite_eq', hrow, hcol]

/-- C6 (score conservation): for every well-formed state with valid cells, a current player
among `1`, `2`, `3`, and scores equal to the tile counts of its board, after an applied
(legal) move the sum of all scores is the previous sum plus `1`. -/
theorem handleCellClick_score_conservation (s : GameState) (row col : Int)
    (hwf : WellFormed s) (hvc : ValidCells s)
    (hcur : 1 ≤ s.currentPlayer ∧ s.currentPlayer ≤ 3)
    (hsc : s.scores = (calculateScore s).scores)
    (hact : s.gameActive = true) (hv : isValidMove s row col s.currentPlayer = true) :
    (handleCellClick s row col).scores.total = s.scores.total + 1 := by
  have hN : (flipDiscs { s with board := setCell s.board row col s.currentPlayer }
      (getFlippableDiscs s row col s.currentPlayer)).boardSize = s.boardSize :=
    (flipDiscs_fields _ _).1
  have hb := handleCellClick_accept_board s row col hact hv
  have hs : (handleCellClick s row col).scores =
      (calculateScore (flipDiscs { s with board := setCell s.board row col s.currentPlayer }
        (getFlippableDiscs s row col s.currentPlayer))).scores := by
    rw [handleCellClick_accept s row col hact hv]
    show (switchTurn _).scores = _
    rw [(switchTurn_fields _).2.2.2]
  rw [hs, calculateScore_total, hN, ← hb, tileCount_handleCellClick s row col hwf hvc hcur hact hv,
    hsc, calculateScore_total]

/-! ## Turn advance -/

theorem roundRobin_length (M : Nat) : ∀ (n q : Nat), (roundRobin M n q).length = n := by
  intro n
  induction n with
  | zero => intro q; rfl
  | succ n ih => intro q; simp [roundRobin, ih]

/-- The `i`-th candidate in closed form. -/
theorem roundRobin_eq_map (M : Nat) :
    ∀ (n a : Nat), roundRobin M n ((a % M) + 1) =
      (List.range n).map (fun (i : Nat) => ((a + i) % M) + 1) := by
  intro n
  induction n with
  | zero => intro a; rfl
  | succ n ih =>
    intro a
    rw [roundRobin, List.range_succ_eq_map, List.map_cons, List.map_map]
    have h : (a % M + 1) % M = (a + 1) % M := by
      rw [Nat.add_mod, Nat.mod_mod, ← Nat.add_mod]
    rw [h, ih (a + 1)]
    simp only [Nat.add_zero, List.cons.injEq, true_and]
    apply List.map_congr_left
    intro i _
    simp only [Function.comp, Nat.succ_eq_add_one]
    rw [Nat.add_assoc, Nat.add_comm 1 i]

theorem turnCandidates_getLast (M c : Nat) (h1 : 1 ≤ c) (h2 : c ≤ M) :
    (turnCandidates M c).getLast? = some c := by
  unfold turnCandidates
  rw [roundRobin_eq_map]
  obtain ⟨m, rfl⟩ : ∃ m, M = m + 1 := ⟨M - 1, by omega⟩
  have : (c + m) % (m + 1) = c - 1 := by
    have e : c + m = (c - 1) + (m + 1) := by omega
    rw [e, Nat.add_mod_right, Nat.mod_eq_of_lt (by omega)]
  rw [List.range_succ, List.map_append, List.map_singleton, List.getLast?_append]
  simp only [List.getLast?_singleton, Option.or, Option.some.injEq]
  rw [this]; omega

theorem mem_roundRobin_range (M : Nat) (hM : 1 ≤ M) :
    ∀ (n q0 q : Nat), 1 ≤ q0 → q0 ≤ M → q ∈ roundRobin M n q0 → 1 ≤ q ∧ q ≤ M := by
  intro n
  induction n with
  | zero => intro q0 q _ _ h; exact absurd h (by simp [roundRobin])
  | succ n ih =>
    intro q0 q h1 h2 h
    rw [roundRobin, List.mem_cons] at h
    rcases h with rfl | h
    · exact ⟨h1, h2⟩
    · have := Nat.mod_lt q0 (show 0 < M by omega)
      exact ih _ q (by omega) (by omega) h

/-- The loop of `switchTurn` stops at the first probed player that has a legal move. -/
theorem switchTurnLoop_eq (s : GameState) (M : Nat) :
    ∀ (n q : Nat), switchTurnLoop s M n q =
      turnOutcome s ((roundRobin M n q).find?
        (fun (r : Nat) => decide ((getValidMoves s r).length > 0))) := by
  intro n
  induction n with
  | zero => intro q; rfl
  | succ n ih =>
    intro q
    rw [switchTurnLoop, roundRobin, List.find?_cons]
    by_cases h : (getValidMoves s q).length > 0
    · simp [h, turnOutcome]
    · simp only [h, if_false, decide_False]
      exact ih _

theorem switchTurn_eq (s : GameState) :
    switchTurn s =
      turnOutcome s ((turnCandidates s.playerMode s.currentPlayer).find?
        (fun (r : Nat) => decide ((getValidMoves s r).length > 0))) :=
  switchTurnLoop_eq s _ _ _

/-- When no probed player has a legal move, `switchTurn` only clears `gameActive`. -/
theorem switchTurn_all_empty (s : GameState)
    (h : ∀ q ∈ turnCandidates s.playerMode s.currentPlayer, getValidMoves s q = []) :
    switchTurn s = { s with gameActive := false } := by
  rw [switchTurn_eq]
  have : (turnCandidates s.playerMode s.currentPlayer).find?
      (fun (r : Nat) => decide ((getValidMoves s r).length > 0)) = none := by
    rw [List.find?_eq_none]
    intro q hq
    simp [h q hq]
  rw [this]
  rfl

/-- C7 (turn advance): with `M = playerMode` and `c = currentPlayer` (a player of the mode),
`switchTurn` probes `M` candidates, `(c mod M) + 1` first, then its round-robin successors,
`c` itself last; the first candidate with a non-empty `getValidMoves` becomes `currentPlayer`
with `validMoves` set to its legal moves and `gameActive` unchanged; if no candidate has a
legal move only `gameActive` changes, to false.  The board and the scores never change. -/
theorem switchTurn_spec (s : GameState)
    (hc : 1 ≤ s.currentPlayer ∧ s.currentPlayer ≤ s.playerMode) :
    (turnCandidates s.playerMode s.currentPlayer).length = s.playerMode ∧
    (turnCandidates s.playerMode s.currentPlayer).head? =
      some ((s.currentPlayer % s.playerMode) + 1) ∧
    (turnCandidates s.playerMode s.currentPlayer).getLast? = some s.currentPlayer ∧
    switchTurn s =
      (match (turnCandidates s.playerMode s.currentPlayer).find?
          (fun (q : Nat) => decide ((getValidMoves s q).length > 0)) with
        | some q => { s with currentPlayer := q, validMoves := getValidMoves s q }
        | none => { s with gameActive := false }) ∧
    (switchTurn s).board = s.board ∧ (switchTurn s).scores = s.scores := by
  refine ⟨roundRobin_length _ _ _, ?_, turnCandidates_getLast _ _ hc.1 hc.2, ?_,
    (switchTurn_fields s).1, (switchTurn_fields s).2.2.2⟩
  · obtain ⟨m, hm⟩ : ∃ m, s.playerMode = m + 1 := ⟨s.playerMode - 1, by omega⟩
    rw [turnCandidates, hm, roundRobin]
    rfl
  · rw [switchTurn_eq]
    rfl

/-! ## End of the game -/

/-- The count of `checkGameEnd` as a sum over the grid. -/
theorem emptyCount_eq_sum (s : GameState) :
    emptyCount s =
      ∑ r in Finset.range s.boardSize, ∑ c in Finset.range s.boardSize,
        (if cellAt s.board r c = some 0 then 1 else 0) := by
  unfold emptyCount
  refine (foldl_measure id
    (fun (row : Nat) => ∑ c in Finset.range s.boardSize,
      (if cellAt s.board row c = some 0 then 1 else 0)) _ ?_ _ _).trans ?_
  · intro n row
    refine (foldl_measure id
      (fun (col : Nat) => if cellAt s.board row col = some 0 then 1 else 0) _ ?_ _ _).trans ?_
    · intro n2 col
      by_cases h : cellAt s.board row col = some 0 <;> simp [h]
    · rw [list_sum_map_range]
  · rw [list_sum_map_range]
    simp

/-- With no Empty cell on the grid nobody has a legal move. -/
theorem getValidMoves_eq_nil_of_full (s : GameState) (hfull : emptyCount s = 0) (q : Nat) :
    getValidMoves s q = [] := by
  rw [emptyCount_eq_sum] at hfull
  rw [List.eq_nil_iff_forall_not_mem]
  intro c hc
  have hmem : (c.1, c.2) ∈ getValidMoves s q := hc
  obtain ⟨⟨h1, h2, h3, h4⟩, hv⟩ := (mem_getValidMoves s q c.1 c.2).1 hmem
  have hcell := isValidMove_cell hv
  have hr : c.1.toNat ∈ Finset.range s.boardSize := by rw [Finset.mem_range]; omega
  have hcc : c.2.toNat ∈ Finset.range s.boardSize := by rw [Finset.mem_range]; omega
  have hz := (Finset.sum_eq_zero_iff.1 ((Finset.sum_eq_zero_iff.1 hfull) _ hr)) _ hcc
  rw [Int.toNat_of_nonneg h1, Int.toNat_of_nonneg h3, if_pos hcell] at hz
  exact absurd hz (by decide)

/-- The synchronous steps of an accepted move leave `gameActive` as `switchTurn` set it, on
the board after the flips. -/
theorem handleCellClick_full_inactive (s : GameState) (row col : Int)
    (hact : s.gameActive = true) (hv : isValidMove s row col s.currentPlayer = true)
    (hfull : emptyCount (handleCellClick s row col) = 0) :
    (handleCellClick s row col).gameActive = false := by
  rw [handleCellClick_accept s row col hact hv] at hfull ⊢
  generalize calculateScore (flipDiscs { s with board := setCell s.board row col s.currentPlayer }
    (getFlippableDiscs s row col s.currentPlayer)) = s3 at hfull ⊢
  have hfull3 : emptyCount s3 = 0 := by
    have e : emptyCount (updateValidMoves (switchTurn s3)) = emptyCount s3 := by
      unfold emptyCount
      show List.foldl _ 0 (List.range (switchTurn s3).boardSize) = _
      simp only [updateValidMoves, (switchTurn_fields s3).1, (switchTurn_fields s3).2.1]
    rw [← e]; exact hfull
  show (switchTurn s3).gameActive = false
  rw [switchTurn_all_empty s3 (fun q _ => getValidMoves_eq_nil_of_full s3 hfull3 q)]

/-- C9 (full board): after a legal move that leaves no Empty cell, `gameActive` is false when
the synchronous steps of `handleCellClick` finish, before the deferred `checkGameEnd`; and
`checkGameEnd` on any state without an Empty cell leaves `gameActive` false. -/
theorem fullBoard_ends_game (s : GameState) (row col : Int)
    (hact : s.gameActive = true) (hv : isValidMove s row col s.currentPlayer = true)
    (hfull : emptyCount (handleCellClick s row col) = 0) :
    (handleCellClick s row col).gameActive = false ∧
    ∀ t : GameState, emptyCount t = 0 → (checkGameEnd t).gameActive = false := by
  refine ⟨handleCellClick_full_inactive s row col hact hv hfull, fun t ht => ?_⟩
  unfold checkGameEnd
  cases ha : t.gameActive with
  | false => simp [ha]
  | true => simp [ht]

/-! ## Outcome -/

theorem maxScore_facts (s : GameState) :
    s.scores.s1 ≤ maxScore s ∧ s.scores.s2 ≤ maxScore s ∧
      (s.playerMode = 3 → s.scores.s3 ≤ maxScore s) ∧
      (maxScore s = s.scores.s1 ∨ maxScore s = s.scores.s2 ∨
        (s.playerMode = 3 ∧ maxScore s = s.scores.s3)) := by
  unfold maxScore
  by_cases hm : s.playerMode = 3
  · simp only [hm, if_true, true_and, forall_const]
    omega
  · simp only [hm, if_false, false_and, or_false, false_implies, true_and]
    omega

theorem mem_winners (s : GameState) (q : Nat) :
    q ∈ winners s ↔
      (q = 1 ∧ s.scores.s1 = maxScore s) ∨ (q = 2 ∧ s.scores.s2 = maxScore s) ∨
        (q = 3 ∧ s.playerMode = 3 ∧ s.scores.s3 = maxScore s) := by
  unfold winners
  generalize maxScore s = m
  by_cases h1 : s.scores.s1 = m <;> by_cases h2 : s.scores.s2 = m <;>
    by_cases h3 : s.playerMode = 3 ∧ s.scores.s3 = m <;> simp [h1, h2, h3]

theorem winners_ne_nil (s : GameState) : winners s ≠ [] := by
  obtain ⟨_, _, _, h | h | h⟩ := maxScore_facts s
  · exact List.ne_nil_of_mem ((mem_winners s 1).2 (Or.inl ⟨rfl, h.symm⟩))
  · exact List.ne_nil_of_mem ((mem_winners s 2).2 (Or.inr (Or.inl ⟨rfl, h.symm⟩)))
  · exact List.ne_nil_of_mem ((mem_winners s 3).2 (Or.inr (Or.inr ⟨rfl, h.1, h.2.symm⟩)))

/-- C10 (outcome): `winners` holds exactly the players of the active mode whose score is
the maximum over the players of the active mode, once each; it is never empty; a tie is
announced if and only if it has more than one entry, otherwise its single entry is the
winner; and outside 3-player mode the score of player 3 has no effect on either. -/
theorem winners_spec (s : GameState) :
    (∀ q, q ∈ winners s ↔
      q ∈ activePlayers s ∧ ∀ r ∈ activePlayers s, scoreOf s r ≤ scoreOf s q) ∧
    (winners s).Nodup ∧
    winners s ≠ [] ∧
    (announcesTie s = true ↔ 1 < (winners s).length) ∧
    (announcesTie s = false ↔ ∃ q, winners s = [q]) ∧
    (s.playerMode ≠ 3 → ∀ x : Nat,
      winners { s with scores := { s.scores with s3 := x } } = winners s ∧
      announcesTie { s with scores := { s.scores with s3 := x } } = announcesTie s) := by
  have hne := winners_ne_nil s
  have hlen : (winners s).length ≠ 0 := fun h => hne (List.eq_nil_of_length_eq_zero h)
  obtain ⟨f1, f2, f3, f4⟩ := maxScore_facts s
  refine ⟨fun q => ?_, ?_, hne, ?_, ?_, fun hm x => ?_⟩
  · rw [mem_winners]
    unfold activePlayers
    by_cases hm : s.playerMode = 3
    · have f3b := f3 hm
      simp only [hm, if_true, true_and, List.mem_cons, List.mem_singleton,
        List.not_mem_nil, or_false, forall_eq_or_imp, forall_eq]
      constructor
      · rintro (⟨rfl, h⟩ | ⟨rfl, h⟩ | ⟨rfl, h⟩) <;> simp [scoreOf] <;> omega
      · rintro ⟨rfl | rfl | rfl, h⟩ <;> simp [scoreOf] at h ⊢ <;> omega
    · simp only [hm, if_false, false_and, and_false, or_false, List.mem_cons,
        List.mem_singleton, List.not_mem_nil, forall_eq_or_imp, forall_eq] at f4 ⊢
      constructor
      · rintro (⟨rfl, h⟩ | ⟨rfl, h⟩) <;> simp [scoreOf] <;> omega
      · rintro ⟨rfl | rfl, h⟩ <;> simp [scoreOf] at h ⊢ <;> omega
  · unfold winners
    split_ifs <;> simp
  · unfold announcesTie
    split_ifs with h
    · simp [h]
    · simp only [true_iff]; omega
  · unfold announcesTie
    split_ifs with h
    · simp only [true_iff]
      exact List.length_eq_one.1 h
    · simp only [Bool.true_eq_false, false_iff]
      rintro ⟨q, hq⟩
      exact h (by rw [hq]; rfl)
  · have hw : winners { s with scores := { s.scores with s3 := x } } = winners s := by
      simp [winners, maxScore, hm]
    exact ⟨hw, by simp only [announcesTie, hw]⟩

/-! ## The theorems at concrete states -/

theorem checkDirection_characterisation_witness :
    ((1 : Int), (0 : Int)) ∈ DIRECTIONS ∧ (1 : Nat) ≠ 0 ∧ Capturable st4 0 1 1 0 1 1 ∧
      checkDirection st4 0 1 1 0 1 = some [(1, 1)] :=
  ⟨by decide, by decide, by decide,
    (((checkDirection_characterisation st4 0 1 1 0 1 (by decide) (by decide)).1 1).1
      (by decide)).2⟩

theorem handleCellClick_frame_witness :
    WellFormed st4 ∧ st4.gameActive = true ∧ isValidMove st4 0 1 st4.currentPlayer = true ∧
      cellAt (handleCellClick st4 0 1).board 0 1 = some 1 ∧
      cellAt (handleCellClick st4 0 1).board 1 1 = some 1 ∧
      cellAt (handleCellClick st4 0 1).board 2 2 = cellAt st4.board 2 2 :=
  ⟨by decide, rfl, by decide,
    (handleCellClick_frame st4 0 1 (by decide) rfl (by decide)).1,
    (handleCellClick_frame st4 0 1 (by decide) rfl (by decide)).2.1 (1, 1) (by decide),
    (handleCellClick_frame st4 0 1 (by decide) rfl (by decide)).2.2 2 2 (by decide)
      (by decide)⟩

theorem handleCellClick_noop_witness :
    (st4.gameActive = false ∨ isValidMove st4 0 0 st4.currentPlayer = false) ∧
      handleCellClick st4 0 0 = st4 :=
  ⟨by decide, (handleCellClick_noop st4 0 0 (by decide)).1⟩

theorem handleCellClick_score_conservation_witness :
    WellFormed st4 ∧ ValidCells st4 ∧ (1 ≤ st4.currentPlayer ∧ st4.currentPlayer ≤ 3) ∧
      st4.scores = (calculateScore st4).scores ∧ st4.gameActive = true ∧
      isValidMove st4 0 1 st4.currentPlayer = true ∧
      (handleCellClick st4 0 1).scores.total = 5 :=
  ⟨by decide, by decide, by decide, by decide, rfl, by decide,
    handleCellClick_score_conservation st4 0 1 (by decide) (by decide) (by decide) (by decide)
      rfl (by decide)⟩

theorem switchTurn_spec_witness :
    (1 ≤ st4.currentPlayer ∧ st4.currentPlayer ≤ st4.playerMode) ∧
      (turnCandidates st4.playerMode st4.currentPlayer).getLast? = some 1 ∧
      (switchTurn st4).currentPlayer = 2 ∧ (switchTurn st4).board = st4.board :=
  ⟨by decide, (switchTurn_spec st4 (by decide)).2.2.1,
    congrArg GameState.currentPlayer (switchTurn_spec st4 (by decide)).2.2.2.1,
    (switchTurn_spec st4 (by decide)).2.2.2.2.1⟩

theorem fullBoard_ends_game_witness :
    stLast.gameActive = true ∧ isValidMove stLast 0 0 stLast.currentPlayer = true ∧
      emptyCount (handleCellClick stLast 0 0) = 0 ∧
      (handleCellClick stLast 0 0).gameActive = false :=
  ⟨rfl, by decide, by decide,
    (fullBoard_ends_game stLast 0 0 rfl (by decide) (by decide)).1⟩

/-! ## The initial state -/

theorem wellFormed_iff_boardDims (s : GameState) :
    WellFormed s ↔ BoardDims s.board s.boardSize := Iff.rfl

theorem setCell_dims {b : List (List Nat)} {N : Nat} (h : BoardDims b N) (x y : Int) (v : Nat) :
    BoardDims (setCell b x y v) N := by
  unfold setCell
  split_ifs
  · exact h
  · cases hr : b[x.toNat]? with
    | none => exact h
    | some r =>
      simp only
      refine ⟨by rw [List.length_set]; exact h.1, fun r2 hr2 => ?_⟩
      rcases List.mem_or_eq_of_mem_set hr2 with h2 | h2
      · exact h.2 r2 h2
      · rw [h2, List.length_set]
        obtain ⟨hx, hxr⟩ := List.getElem?_eq_some.1 hr
        exact h.2 r (hxr ▸ List.getElem_mem hx)

theorem cellAt_of_dims {b : List (List Nat)} {N : Nat} (h : BoardDims b N) {x y : Int}
    (hx0 : 0 ≤ x) (hx1 : x < N) (hy0 : 0 ≤ y) (hy1 : y < N) :
    (cellAt b x y).isSome = true := by
  unfold cellAt
  rw [if_neg (by omega)]
  have hx : x.toNat < b.length := by rw [h.1]; omega
  rw [List.getElem?_eq_getElem hx]
  have hy : y.toNat < (b[x.toNat]).length := by
    rw [h.2 _ (List.getElem_mem hx)]; omega
  simp only
  rw [List.getElem?_eq_getElem hy]
  rfl

theorem cellAt_none_of_dims {b : List (List Nat)} {N : Nat} (h : BoardDims b N) {x y : Int}
    (hout : ¬ (0 ≤ x ∧ x < N ∧ 0 ≤ y ∧ y < N)) : cellAt b x y = none := by
  unfold cellAt
  by_cases hneg : x < 0 ∨ y < 0
  · rw [if_pos hneg]
  · rw [if_neg hneg]
    cases hr : b[x.toNat]? with
    | none => rfl
    | some r =>
      simp only
      obtain ⟨hx, hxr⟩ := List.getElem?_eq_some.1 hr
      have hlen : r.length = N := h.2 r (hxr ▸ List.getElem_mem hx)
      rw [h.1] at hx
      apply List.getElem?_eq_none
      omega

theorem cellAt_setCell_dims {b : List (List Nat)} {N : Nat} (h : BoardDims b N) {x0 y0 : Int}
    (hx0 : 0 ≤ x0) (hx1 : x0 < N) (hy0 : 0 ≤ y0) (hy1 : y0 < N) (v : Nat) (x y : Int) :
    cellAt (setCell b x0 y0 v) x y = if x = x0 ∧ y = y0 then some v else cellAt b x y := by
  rw [cellAt_setCell]
  simp only [cellAt_of_dims h hx0 hx1 hy0 hy1, and_true]

theorem writeCell_eq_some {b : List (List Nat)} {N : Nat} (h : BoardDims b N) {x : Int}
    (hx0 : 0 ≤ x) (hx1 : x < N) (y : Int) (v : Nat) :
    writeCell b x y v = some (setCell b x y v) := by
  unfold writeCell
  rw [if_neg (by omega)]
  have hx : x.toNat < b.length := by rw [h.1]; omega
  rw [List.getElem?_eq_getElem hx]

theorem replicate_dims (N : Nat) : BoardDims (List.replicate N (List.replicate N 0)) N := by
  refine ⟨List.length_replicate _ _, fun r hr => ?_⟩
  rw [List.eq_of_mem_replicate hr, List.length_replicate]

theorem cellAt_replicate (N : Nat) {x y : Int}
    (hx0 : 0 ≤ x) (hx1 : x < N) (hy0 : 0 ≤ y) (hy1 : y < N) :
    cellAt (List.replicate N (List.replicate N 0)) x y = some 0 := by
  unfold cellAt
  rw [if_neg (by omega)]
  have hx : x.toNat < N := by omega
  have hy : y.toNat < N := by omega
  simp [List.getElem?_replicate, hx, hy]

theorem seedBoard_dims (N mode : Nat) : BoardDims (seedBoard N mode) N := by
  unfold seedBoard
  dsimp only
  split_ifs
  · exact setCell_dims (setCell_dims (setCell_dims (setCell_dims (replicate_dims N) _ _ _)
      _ _ _) _ _ _) _ _ _
  · exact setCell_dims (setCell_dims (setCell_dims (setCell_dims (replicate_dims N) _ _ _)
      _ _ _) _ _ _) _ _ _
  · exact setCell_dims (setCell_dims (setCell_dims (replicate_dims N) _ _ _) _ _ _) _ _ _

/-- With at least two rows no seed write throws. -/
theorem initializeBoard_eq (N mode : Nat) (hN : 2 ≤ N) :
    initializeBoard N mode = some (updateValidMoves (calculateScore (seedState N mode))) := by
  have hc0 : (0 : Int) ≤ ((N / 2 : Nat) : Int) - 1 := by omega
  have hc1 : ((N / 2 : Nat) : Int) - 1 < N := by omega
  have hc2 : (0 : Int) ≤ ((N / 2 : Nat) : Int) := by omega
  have hc3 : ((N / 2 : Nat) : Int) < N := by omega
  have d0 := replicate_dims N
  unfold initializeBoard seedState seedBoard
  by_cases hm : mode = 2
  · have d1 := setCell_dims d0 (((N / 2 : Nat) : Int) - 1) (((N / 2 : Nat) : Int) - 1) 2
    have d2 := setCell_dims d1 (((N / 2 : Nat) : Int) - 1) ((N / 2 : Nat) : Int) 1
    have d3 := setCell_dims d2 ((N / 2 : Nat) : Int) (((N / 2 : Nat) : Int) - 1) 1
    simp only [hm, if_true, writeCell_eq_some d0 hc0 hc1, writeCell_eq_some d1 hc0 hc1,
      writeCell_eq_some d2 hc2 hc3, writeCell_eq_some d3 hc2 hc3, Option.bind_eq_bind,
      Option.some_bind, Option.pure_def]
  · have d1 := setCell_dims d0 (((N / 2 : Nat) : Int) - 1) (((N / 2 : Nat) : Int) - 1) 1
    have d2 := setCell_dims d1 (((N / 2 : Nat) : Int) - 1) ((N / 2 : Nat) : Int) 2
    have d3 := setCell_dims d2 ((N / 2 : Nat) : Int) (((N / 2 : Nat) : Int) - 1) 3
    by_cases h8 : N ≥ 8
    · simp only [hm, if_false, h8, if_true, writeCell_eq_some d0 hc0 hc1,
        writeCell_eq_some d1 hc0 hc1, writeCell_eq_some d2 hc2 hc3,
        writeCell_eq_some d3 hc2 hc3, Option.bind_eq_bind, Option.some_bind, Option.pure_def]
    · simp only [hm, if_false, h8, writeCell_eq_some d0 hc0 hc1,
        writeCell_eq_some d1 hc0 hc1, writeCell_eq_some d2 hc2 hc3, Option.bind_eq_bind,
        Option.some_bind, Option.pure_def]

/-- The seeded board, cell by cell: the layout on the grid, nothing outside it. -/
theorem cellAt_seedBoard (N mode : Nat) (hN : 2 ≤ N) (x y : Int) :
    cellAt (seedBoard N mode) x y =
      if 0 ≤ x ∧ x < N ∧ 0 ≤ y ∧ y < N then some (seedLayout N mode x y) else none := by
  by_cases hin : 0 ≤ x ∧ x < N ∧ 0 ≤ y ∧ y < N
  · rw [if_pos hin]
    obtain ⟨h1, h2, h3, h4⟩ := hin
    have hc0 : (0 : Int) ≤ ((N / 2 : Nat) : Int) - 1 := by omega
    have hc1 : ((N / 2 : Nat) : Int) - 1 < N := by omega
    have hc2 : (0 : Int) ≤ ((N / 2 : Nat) : Int) := by omega
    have hc3 : ((N / 2 : Nat) : Int) < N := by omega
    have d0 := replicate_dims N
    unfold seedBoard seedLayout
    dsimp only
    by_cases hm : mode = 2
    · have d1 := setCell_dims d0 (((N / 2 : Nat) : Int) - 1) (((N / 2 : Nat) : Int) - 1) 2
      have d2 := setCell_dims d1 (((N / 2 : Nat) : Int) - 1) ((N / 2 : Nat) : Int) 1
      have d3 := setCell_dims d2 ((N / 2 : Nat) : Int) (((N / 2 : Nat) : Int) - 1) 1
      rw [if_pos hm, if_pos hm, cellAt_setCell_dims d3 hc2 hc3 hc2 hc3,
        cellAt_setCell_dims d2 hc2 hc3 hc0 hc1, cellAt_setCell_dims d1 hc0 hc1 hc2 hc3,
        cellAt_setCell_dims d0 hc0 hc1 hc0 hc1, cellAt_replicate N h1 h2 h3 h4]
      split_ifs <;> first | rfl | omega
    · have d1 := setCell_dims d0 (((N / 2 : Nat) : Int) - 1) (((N / 2 : Nat) : Int) - 1) 1
      have d2 := setCell_dims d1 (((N / 2 : Nat) : Int) - 1) ((N / 2 : Nat) : Int) 2
      have d3 := setCell_dims d2 ((N / 2 : Nat) : Int) (((N / 2 : Nat) : Int) - 1) 3
      rw [if_neg hm, if_neg hm]
      by_cases h8 : N ≥ 8
      · rw [if_pos h8, cellAt_setCell_dims d3 hc2 hc3 hc2 hc3,
          cellAt_setCell_dims d2 hc2 hc3 hc0 hc1, cellAt_setCell_dims d1 hc0 hc1 hc2 hc3,
          cellAt_setCell_dims d0 hc0 hc1 hc0 hc1, cellAt_replicate N h1 h2 h3 h4]
        split_ifs <;> first | rfl | omega
      · rw [if_neg h8,
          cellAt_setCell_dims d2 hc2 hc3 hc0 hc1, cellAt_setCell_dims d1 hc0 hc1 hc2 hc3,
          cellAt_setCell_dims d0 hc0 hc1 hc0 hc1, cellAt_replicate N h1 h2 h3 h4]
        split_ifs <;> first | rfl | omega
  · rw [if_neg hin]
    exact cellAt_none_of_dims (seedBoard_dims N mode) hin

theorem initializeBoard_fields (N mode : Nat) (hN : 2 ≤ N) {s : GameState}
    (h : initializeBoard N mode = some s) :
    s.board = seedBoard N mode ∧ s.boardSize = N ∧ s.playerMode = mode ∧
      s.currentPlayer = 1 ∧ s.gameActive = true ∧
      s.scores = (calculateScore (seedState N mode)).scores ∧
      s.validMoves = getValidMoves (calculateScore (seedState N mode)) 1 := by
  rw [initializeBoard_eq N mode hN] at h
  cases h
  exact ⟨rfl, rfl, rfl, rfl, rfl, rfl, rfl⟩

/-- C11 (initial layout): for every `N ≥ 2`, so for every even `N ≥ 4`, and every mode,
`initializeBoard(N, mode)` returns a state whose board is `N × N` and holds the seed layout
(2-player: `(c-1,c-1) = 2`, `(c-1,c) = 1`, `(c,c-1) = 1`, `(c,c) = 2`; 3-player:
`(c-1,c-1) = 1`, `(c-1,c) = 2`, `(c,c-1) = 3`, and `(c,c) = 1` if `N ≥ 8` but Empty if `N < 8`;
every other cell Empty, `c = floor(N / 2)`), with `currentPlayer = 1` and `gameActive`
true. -/
theorem initializeBoard_layout (N mode : Nat) (hN : 2 ≤ N) :
    ∃ s, initializeBoard N mode = some s ∧
      s.board.length = N ∧ (∀ r ∈ s.board, r.length = N) ∧ s.boardSize = N ∧
      s.playerMode = mode ∧ s.currentPlayer = 1 ∧ s.gameActive = true ∧
      ∀ x y : Int, 0 ≤ x → x < N → 0 ≤ y → y < N →
        cellAt s.board x y = some (seedLayout N mode x y) := by
  refine ⟨_, initializeBoard_eq N mode hN, (seedBoard_dims N mode).1, (seedBoard_dims N mode).2,
    rfl, rfl, rfl, rfl, fun x y h1 h2 h3 h4 => ?_⟩
  show cellAt (seedBoard N mode) x y = _
  rw [cellAt_seedBoard N mode hN, if_pos ⟨h1, h2, h3, h4⟩]

theorem initializeBoard_layout_witness :
    2 ≤ 8 ∧ ∃ s, initializeBoard 8 3 = some s ∧
      s.board.length = 8 ∧ (∀ r ∈ s.board, r.length = 8) ∧ s.boardSize = 8 ∧
      s.playerMode = 3 ∧ s.currentPlayer = 1 ∧ s.gameActive = true ∧
      ∀ x y : Int, 0 ≤ x → x < (8 : Nat) → 0 ≤ y → y < (8 : Nat) →
        cellAt s.board x y = some (seedLayout 8 3 x y) :=
  ⟨by decide, initializeBoard_layout 8 3 (by decide)⟩

/-! ## Counting the cells of one player -/

/-- Each score that `calculateScore` computes is the number of cells of the grid that hold
that player. -/
theorem calculateScore_count (s : GameState) (m : Scores → Nat) (k : Nat)
    (h0 : m ⟨0, 0, 0⟩ = 0)
    (hstep : ∀ (sc : Scores) (o : Option Nat),
      m (match o with
        | some value => if value ≠ 0 then incScore sc value else sc
        | none => sc) = m sc + (if o = some k then 1 else 0)) :
    m (calculateScore s).scores =
      ∑ r in Finset.range s.boardSize, ∑ c in Finset.range s.boardSize,
        (if cellAt s.board r c = some k then 1 else 0) := by
  unfold calculateScore
  dsimp only
  rw [foldl_measure m
    (fun (row : Nat) => ∑ c in Finset.range s.boardSize,
      (if cellAt s.board row c = some k then 1 else 0))]
  · rw [list_sum_map_range, h0, Nat.zero_add]
  · intro sc row
    rw [foldl_measure m (fun (col : Nat) => if cellAt s.board row col = some k then 1 else 0)]
    · rw [list_sum_map_range]
    · intro sc2 col
      exact hstep sc2 _

theorem incScore_step_s1 (sc : Scores) (o : Option Nat) :
    (match o with
      | some value => if value ≠ 0 then incScore sc value else sc
      | none => sc).s1 = sc.s1 + (if o = some 1 then 1 else 0) := by
  cases o with
  | none => simp
  | some v =>
    by_cases h1 : v = 1
    · subst h1; simp [incScore]
    · by_cases h0 : v = 0
      · subst h0; simp
      · simp only [ne_eq, h0, not_false_eq_true, if_true, Option.some.injEq, h1, if_false,
          Nat.add_zero]
        unfold incScore
        split_ifs <;> rfl

theorem incScore_step_s2 (sc : Scores) (o : Option Nat) :
    (match o with
      | some value => if value ≠ 0 then incScore sc value else sc
      | none => sc).s2 = sc.s2 + (if o = some 2 then 1 else 0) := by
  cases o with
  | none => simp
  | some v =>
    by_cases h1 : v = 2
    · subst h1; simp [incScore]
    · by_cases h0 : v = 0
      · subst h0; simp
      · simp only [ne_eq, h0, not_false_eq_true, if_true, Option.some.injEq, h1, if_false,
          Nat.add_zero]
        unfold incScore
        split_ifs <;> rfl

theorem incScore_step_s3 (sc : Scores) (o : Option Nat) :
    (match o with
      | some value => if value ≠ 0 then incScore sc value else sc
      | none => sc).s3 = sc.s3 + (if o = some 3 then 1 else 0) := by
  cases o with
  | none => simp
  | some v =>
    by_cases h1 : v = 3
    · subst h1; simp [incScore]
    · by_cases h0 : v = 0
      · subst h0; simp
      · simp only [ne_eq, h0, not_false_eq_true, if_true, Option.some.injEq, h1, if_false,
          Nat.add_zero]
        unfold incScore
        split_ifs <;> rfl

/-- Exactly one cell of the grid is the cell `(r0, c0)`. -/
theorem sum_point (N r0 c0 : Nat) (hr : r0 < N) (hc : c0 < N) :
    (∑ r in Finset.range N, ∑ c in Finset.range N,
      (if r = r0 ∧ c = c0 then 1 else 0)) = 1 := by
  have hrow : r0 ∈ Finset.range N := Finset.mem_range.2 hr
  have hcol : c0 ∈ Finset.range N := Finset.mem_range.2 hc
  simp [ite_and, Finset.sum_ite_eq', hrow, hcol]

/-- A sum over the grid only depends on the summand at the cells of the grid. -/
theorem sum_grid_congr (N : Nat) (f g : Nat → Nat → Nat)
    (h : ∀ r c, r < N → c < N → f r c = g r c) :
    (∑ r in Finset.range N, ∑ c in Finset.range N, f r c) =
      ∑ r in Finset.range N, ∑ c in Finset.range N, g r c :=
  Finset.sum_congr rfl (fun r hr => Finset.sum_congr rfl (fun c hc =>
    h r c (Finset.mem_range.1 hr) (Finset.mem_range.1 hc)))

/-! ## Legal moves through capturable runs -/

/-- A move captures something exactly when some direction has a capturable run. -/
theorem getFlippableDiscs_ne_nil_iff (s : GameState) (row col : Int) {p : Nat} (hp : p ≠ 0) :
    getFlippableDiscs s row col p ≠ [] ↔
      ∃ d ∈ DIRECTIONS, ∃ k, Capturable s row col d.1 d.2 p k := by
  constructor
  · intro h
    obtain ⟨c, hc⟩ := List.exists_mem_of_ne_nil _ h
    obtain ⟨d, hd, hmem⟩ := (mem_getFlippableDiscs s row col p c).1 hc
    rcases checkDirection_cases s row col d.1 d.2 p hd hp with ⟨k, hk, _⟩ | ⟨_, hres⟩
    · exact ⟨d, hd, k, hk⟩
    · rw [hres] at hmem
      exact absurd hmem (by simp)
  · rintro ⟨d, hd, k, hk⟩
    rcases checkDirection_cases s row col d.1 d.2 p hd hp with ⟨j, hj, hres⟩ | ⟨hno, _⟩
    · have hlen : 0 < (runCells row col d.1 d.2 j).length := by
        rw [runCells_length]; exact hj.1
      obtain ⟨c, hc⟩ := List.exists_mem_of_length_pos hlen
      apply List.ne_nil_of_mem
      exact (mem_getFlippableDiscs s row col p c).2 ⟨d, hd, by rw [hres]; exact hc⟩
    · exact absurd hk (hno k)

/-- The first cells of a capturable run: the first is an opponent's, the second is not
Empty, and either the second is the mover's and the run has length 1, or the second is an
opponent's too and the third is not Empty. -/
theorem Capturable_first_steps {s : GameState} {row col dx dy : Int} {p k : Nat} (hp : p ≠ 0)
    (h : Capturable s row col dx dy p k) :
    (inBounds s (row + dx) (col + dy) ∧ cellAt s.board (row + dx) (col + dy) ≠ some 0 ∧
      cellAt s.board (row + dx) (col + dy) ≠ some p) ∧
    inBounds s (row + 2 * dx) (col + 2 * dy) ∧
    ((k = 1 ∧ cellAt s.board (row + 2 * dx) (col + 2 * dy) = some p) ∨
      (2 ≤ k ∧ cellAt s.board (row + 2 * dx) (col + 2 * dy) ≠ some 0 ∧
        cellAt s.board (row + 2 * dx) (col + 2 * dy) ≠ some p ∧
        inBounds s (row + 3 * dx) (col + 3 * dy) ∧
        cellAt s.board (row + 3 * dx) (col + 3 * dy) ≠ some 0)) := by
  obtain ⟨hk1, hsteps, _, hend_in, hend⟩ := h
  have hp0 : (some p : Option Nat) ≠ some 0 := by simpa using hp
  have e1 : ∀ a d : Int, a + ((0 + 1 : Nat) : Int) * d = a + d := by
    intro a d; push_cast; ring
  have e2 : ∀ a d : Int, a + ((1 + 1 : Nat) : Int) * d = a + 2 * d := by
    intro a d; push_cast; ring
  have e3 : ∀ a d : Int, a + ((2 + 1 : Nat) : Int) * d = a + 3 * d := by
    intro a d; push_cast; ring
  have f1 := hsteps 0 (by omega)
  simp only [stepInBounds, stepCell, e1] at f1
  refine ⟨f1, ?_⟩
  rcases Nat.lt_or_ge k 2 with hk | hk
  · have hk' : k = 1 := by omega
    subst hk'
    simp only [stepInBounds, stepCell, e2] at hend_in hend
    exact ⟨hend_in, Or.inl ⟨rfl, hend⟩⟩
  · have f2 := hsteps 1 (by omega)
    simp only [stepInBounds, stepCell, e2] at f2
    refine ⟨f2.1, Or.inr ⟨hk, f2.2.1, f2.2.2, ?_⟩⟩
    rcases Nat.lt_or_ge k 3 with hk3 | hk3
    · have hk' : k = 2 := by omega
      subst hk'
      simp only [stepInBounds, stepCell, e3] at hend_in hend
      exact ⟨hend_in, by rw [hend]; exact hp0⟩
    · have f3 := hsteps 2 (by omega)
      simp only [stepInBounds, stepCell, e3] at f3
      exact ⟨f3.1, f3.2.1⟩

/-- A run of length 1: an opponent's cell next to the origin with a cell of the mover
behind it. -/
theorem Capturable_one {s : GameState} {row col dx dy : Int} {p : Nat}
    (h1 : inBounds s (row + dx) (col + dy))
    (h10 : cellAt s.board (row + dx) (col + dy) ≠ some 0)
    (h1p : cellAt s.board (row + dx) (col + dy) ≠ some p)
    (h2 : inBounds s (row + 2 * dx) (col + 2 * dy))
    (h2p : cellAt s.board (row + 2 * dx) (col + 2 * dy) = some p) :
    Capturable s row col dx dy p 1 := by
  have e1 : ∀ a d : Int, a + ((0 + 1 : Nat) : Int) * d = a + d := by
    intro a d; push_cast; ring
  have e2 : ∀ a d : Int, a + ((1 + 1 : Nat) : Int) * d = a + 2 * d := by
    intro a d; push_cast; ring
  refine ⟨Nat.le_refl 1, fun i hi => ?_, fun _ i hi => ?_, ?_, ?_⟩
  · have : i = 0 := by omega
    subst this
    simp only [stepInBounds, stepCell, e1]
    exact ⟨h1, h10, h1p⟩
  · have : i = 0 := by omega
    subst this
    rfl
  · simp only [stepInBounds, e2]; exact h2
  · simp only [stepCell, e2]; exact h2p

/-! ## Dependence on the board only -/

theorem checkDirection_congr {s t : GameState} (hb : s.board = t.board)
    (hN : s.boardSize = t.boardSize) (hM : s.playerMode = t.playerMode)
    (row col dx dy : Int) (p : Nat) :
    checkDirection s row col dx dy p = checkDirection t row col dx dy p := by
  unfold checkDirection
  rw [hN]
  exact checkDirectionLoop_congr t s dx dy p hN hM _ _ _ _ _ (fun i => by rw [hb])

theorem getFlippableDiscs_congr {s t : GameState} (hb : s.board = t.board)
    (hN : s.boardSize = t.boardSize) (hM : s.playerMode = t.playerMode)
    (row col : Int) (p : Nat) :
    getFlippableDiscs s row col p = getFlippableDiscs t row col p := by
  rw [getFlippableDiscs_eq, getFlippableDiscs_eq]
  apply List.flatMap_congr
  intro d _
  rw [checkDirection_congr hb hN hM]

theorem isValidMove_congr {s t : GameState} (hb : s.board = t.board)
    (hN : s.boardSize = t.boardSize) (hM : s.playerMode = t.playerMode)
    (row col : Int) (p : Nat) :
    isValidMove s row col p = isValidMove t row col p := by
  unfold isValidMove
  rw [hb, getFlippableDiscs_congr hb hN hM]

/-- The legal moves depend on the state only through the board, its size and the mode. -/
theorem getValidMoves_congr {s t : GameState} (hb : s.board = t.board)
    (hN : s.boardSize = t.boardSize) (hM : s.playerMode = t.playerMode) (p : Nat) :
    getValidMoves s p = getValidMoves t p := by
  rw [getValidMoves_eq, getValidMoves_eq, hN, hb]
  simp only [isValidMove_congr hb hN hM]

/-! ## The opening position -/

/-- On a state holding the seeded board, every cell of the grid holds its layout value. -/
theorem seed_cell {N mode : Nat} (hN : 2 ≤ N) {s : GameState} (hb : s.board = seedBoard N mode)
    (hsz : s.boardSize = N) {a b : Int} (h : inBounds s a b) :
    cellAt s.board a b = some (seedLayout N mode a b) := by
  unfold inBounds at h
  rw [hsz] at h
  rw [hb, cellAt_seedBoard N mode hN, if_pos ⟨h.1, h.2.1, h.2.2.1, h.2.2.2⟩]

/-- The 2-player layout in linear form. -/
theorem seedLayout_two (N : Nat) (a b : Int) :
    (seedLayout N 2 a b ≠ 0 ↔
      (a = ((N / 2 : Nat) : Int) - 1 ∨ a = ((N / 2 : Nat) : Int)) ∧
      (b = ((N / 2 : Nat) : Int) - 1 ∨ b = ((N / 2 : Nat) : Int))) ∧
    (seedLayout N 2 a b = 1 ↔
      (a = ((N / 2 : Nat) : Int) - 1 ∧ b = ((N / 2 : Nat) : Int)) ∨
      (a = ((N / 2 : Nat) : Int) ∧ b = ((N / 2 : Nat) : Int) - 1)) := by
  unfold seedLayout
  simp only [if_true]
  split_ifs <;> simp <;> omega

/-- A cell of the 2-player layout that is neither Empty nor player 1's is one of the two
seed cells of player 2. -/
theorem seedLayout_two_opponent (N : Nat) (a b : Int) (h0 : seedLayout N 2 a b ≠ 0)
    (h1 : seedLayout N 2 a b ≠ 1) :
    (a = ((N / 2 : Nat) : Int) - 1 ∧ b = ((N / 2 : Nat) : Int) - 1) ∨
      (a = ((N / 2 : Nat) : Int) ∧ b = ((N / 2 : Nat) : Int)) := by
  have hb := (seedLayout_two N a b).1.1 h0
  have hn : ¬ ((a = ((N / 2 : Nat) : Int) - 1 ∧ b = ((N / 2 : Nat) : Int)) ∨
      (a = ((N / 2 : Nat) : Int) ∧ b = ((N / 2 : Nat) : Int) - 1)) :=
    fun h => h1 ((seedLayout_two N a b).2.2 h)
  clear h0 h1
  omega

/-- The origin of a run of length 1 over a seed cell of player 2 onto a seed cell of
player 1. -/
theorem opening_arith (c x y dx dy : Int)
    (h1 : (x + dx = c - 1 ∧ y + dy = c - 1) ∨ (x + dx = c ∧ y + dy = c))
    (h2 : (x + 2 * dx = c - 1 ∧ y + 2 * dy = c) ∨ (x + 2 * dx = c ∧ y + 2 * dy = c - 1)) :
    (x = c - 2 ∧ y = c - 1) ∨ (x = c - 1 ∧ y = c - 2) ∨ (x = c ∧ y = c + 1) ∨
      (x = c + 1 ∧ y = c) := by
  omega

/-- Three consecutive cells of a scan do not fit in the 2 × 2 block of seed cells. -/
theorem block_three (c x y dx dy : Int) (hd : (dx, dy) ∈ DIRECTIONS)
    (h1 : (x + dx = c - 1 ∨ x + dx = c) ∧ (y + dy = c - 1 ∨ y + dy = c))
    (h3 : (x + 3 * dx = c - 1 ∨ x + 3 * dx = c) ∧ (y + 3 * dy = c - 1 ∨ y + 3 * dy = c)) :
    False := by
  simp only [DIRECTIONS, List.mem_cons, Prod.mk.injEq, List.mem_singleton, List.not_mem_nil,
    or_false] at hd
  rcases hd with ⟨rfl, rfl⟩ | ⟨rfl, rfl⟩ | ⟨rfl, rfl⟩ | ⟨rfl, rfl⟩ | ⟨rfl, rfl⟩ |
    ⟨rfl, rfl⟩ | ⟨rfl, rfl⟩ | ⟨rfl, rfl⟩ <;> omega

/-- The standard opening: on the seeded 2-player board with `N ≥ 4`, player 1 has exactly
the four legal moves next to the two discs of player 2. -/
theorem opening_isValidMove (N : Nat) (hN : 4 ≤ N) (s : GameState)
    (hb : s.board = seedBoard N 2) (hsz : s.boardSize = N) (x y : Int) :
    (inBounds s x y ∧ isValidMove s x y 1 = true) ↔
      (x = ((N / 2 : Nat) : Int) - 2 ∧ y = ((N / 2 : Nat) : Int) - 1) ∨
      (x = ((N / 2 : Nat) : Int) - 1 ∧ y = ((N / 2 : Nat) : Int) - 2) ∨
      (x = ((N / 2 : Nat) : Int) ∧ y = ((N / 2 : Nat) : Int) + 1) ∨
      (x = ((N / 2 : Nat) : Int) + 1 ∧ y = ((N / 2 : Nat) : Int)) := by
  have hN2 : 2 ≤ N := by omega
  have hcellv : ∀ a b : Int, inBounds s a b →
      cellAt s.board a b = some (seedLayout N 2 a b) := fun a b h => seed_cell hN2 hb hsz h
  have hinb : ∀ a b : Int, inBounds s a b ↔ (0 ≤ a ∧ a < N ∧ 0 ≤ b ∧ b < N) := by
    intro a b; unfold inBounds; rw [hsz]
  constructor
  · rintro ⟨_, hv⟩
    obtain ⟨d, hd, k, hk⟩ := (getFlippableDiscs_ne_nil_iff s x y (by decide)).1
      ((isValidMove_eq_true_iff s x y 1).1 hv).2
    obtain ⟨⟨g1, g10, g11⟩, g2, g3⟩ := Capturable_first_steps (by decide) hk
    rw [hcellv _ _ g1] at g10 g11
    have a1 : seedLayout N 2 (x + d.1) (y + d.2) ≠ 0 := fun h => g10 (by rw [h])
    have a2 : seedLayout N 2 (x + d.1) (y + d.2) ≠ 1 := fun h => g11 (by rw [h])
    rw [hcellv _ _ g2] at g3
    rcases g3 with ⟨_, g3⟩ | ⟨_, g30, _, g3in, g33⟩
    · exact opening_arith _ x y d.1 d.2 (seedLayout_two_opponent N _ _ a1 a2)
        ((seedLayout_two N _ _).2.1 (Option.some.inj g3))
    · rw [hcellv _ _ g3in] at g33
      have e1 : seedLayout N 2 (x + 3 * d.1) (y + 3 * d.2) ≠ 0 := fun h => g33 (by rw [h])
      exact (block_three _ x y d.1 d.2 hd ((seedLayout_two N _ _).1.1 a1)
        ((seedLayout_two N _ _).1.1 e1)).elim
  · intro h
    have key : ∀ (dx dy : Int), (dx, dy) ∈ DIRECTIONS →
        (0 ≤ x ∧ x < N ∧ 0 ≤ y ∧ y < N) → seedLayout N 2 x y = 0 →
        (0 ≤ x + dx ∧ x + dx < N ∧ 0 ≤ y + dy ∧ y + dy < N) →
        seedLayout N 2 (x + dx) (y + dy) ≠ 0 → seedLayout N 2 (x + dx) (y + dy) ≠ 1 →
        (0 ≤ x + 2 * dx ∧ x + 2 * dx < N ∧ 0 ≤ y + 2 * dy ∧ y + 2 * dy < N) →
        seedLayout N 2 (x + 2 * dx) (y + 2 * dy) = 1 →
        inBounds s x y ∧ isValidMove s x y 1 = true := by
      intro dx dy hd h0 hz h1 h10 h11 h2 h21
      have i0 := (hinb x y).2 h0
      have i1 := (hinb _ _).2 h1
      have i2 := (hinb _ _).2 h2
      refine ⟨i0, (isValidMove_eq_true_iff s x y 1).2 ⟨by rw [hcellv x y i0, hz],
        (getFlippableDiscs_ne_nil_iff s x y (by decide)).2 ⟨(dx, dy), hd, 1, ?_⟩⟩⟩
      refine Capturable_one i1 ?_ ?_ i2 ?_
      · rw [hcellv _ _ i1]; exact fun h => h10 (Option.some.inj h)
      · rw [hcellv _ _ i1]; exact fun h => h11 (Option.some.inj h)
      · rw [hcellv _ _ i2, h21]
    have lz : ∀ a b : Int, ¬ ((a = ((N / 2 : Nat) : Int) - 1 ∨ a = ((N / 2 : Nat) : Int)) ∧
        (b = ((N / 2 : Nat) : Int) - 1 ∨ b = ((N / 2 : Nat) : Int))) →
        seedLayout N 2 a b = 0 := by
      intro a b hnot
      by_contra hne
      exact hnot ((seedLayout_two N a b).1.1 hne)
    have l1 : ∀ a b : Int, ((a = ((N / 2 : Nat) : Int) - 1 ∧ b = ((N / 2 : Nat) : Int)) ∨
        (a = ((N / 2 : Nat) : Int) ∧ b = ((N / 2 : Nat) : Int) - 1)) →
        seedLayout N 2 a b = 1 := fun a b => (seedLayout_two N a b).2.2
    have l2 : ∀ a b : Int, ((a = ((N / 2 : Nat) : Int) - 1 ∧ b = ((N / 2 : Nat) : Int) - 1) ∨
        (a = ((N / 2 : Nat) : Int) ∧ b = ((N / 2 : Nat) : Int))) →
        seedLayout N 2 a b ≠ 0 ∧ seedLayout N 2 a b ≠ 1 := by
      intro a b hab
      refine ⟨(seedLayout_two N a b).1.2 (by omega), fun h1 => ?_⟩
      have := (seedLayout_two N a b).2.1 h1
      omega
    rcases h with ⟨rfl, rfl⟩ | ⟨rfl, rfl⟩ | ⟨rfl, rfl⟩ | ⟨rfl, rfl⟩
    · exact key 1 0 (by decide) (by omega) (lz _ _ (by omega)) (by omega)
        (l2 _ _ (by omega)).1 (l2 _ _ (by omega)).2 (by omega) (l1 _ _ (by omega))
    · exact key 0 1 (by decide) (by omega) (lz _ _ (by omega)) (by omega)
        (l2 _ _ (by omega)).1 (l2 _ _ (by omega)).2 (by omega) (l1 _ _ (by omega))
    · exact key 0 (-1) (by decide) (by omega) (lz _ _ (by omega)) (by omega)
        (l2 _ _ (by omega)).1 (l2 _ _ (by omega)).2 (by omega) (l1 _ _ (by omega))
    · exact key (-1) 0 (by decide) (by omega) (lz _ _ (by omega)) (by omega)
        (l2 _ _ (by omega)).1 (l2 _ _ (by omega)).2 (by omega) (l1 _ _ (by omega))

/-! ## The scores of the initial state -/

/-- The 2-player layout, case by case. -/
theorem seedLayout_two_cases (N : Nat) (a b : Int) :
    (seedLayout N 2 a b = 2 ∧
      ((a = ((N / 2 : Nat) : Int) - 1 ∧ b = ((N / 2 : Nat) : Int) - 1) ∨
        (a = ((N / 2 : Nat) : Int) ∧ b = ((N / 2 : Nat) : Int)))) ∨
    (seedLayout N 2 a b = 1 ∧
      ((a = ((N / 2 : Nat) : Int) - 1 ∧ b = ((N / 2 : Nat) : Int)) ∨
        (a = ((N / 2 : Nat) : Int) ∧ b = ((N / 2 : Nat) : Int) - 1))) ∨
    (seedLayout N 2 a b = 0 ∧
      ¬ ((a = ((N / 2 : Nat) : Int) - 1 ∨ a = ((N / 2 : Nat) : Int)) ∧
        (b = ((N / 2 : Nat) : Int) - 1 ∨ b = ((N / 2 : Nat) : Int)))) := by
  unfold seedLayout
  simp only [if_true]
  split_ifs <;> simp <;> omega

/-- The 3-player layout on a board with `N ≥ 8`, case by case. -/
theorem seedLayout_three_cases (N mode : Nat) (hm : mode ≠ 2) (h8 : 8 ≤ N) (a b : Int) :
    (seedLayout N mode a b = 1 ∧
      ((a = ((N / 2 : Nat) : Int) - 1 ∧ b = ((N / 2 : Nat) : Int) - 1) ∨
        (a = ((N / 2 : Nat) : Int) ∧ b = ((N / 2 : Nat) : Int)))) ∨
    (seedLayout N mode a b = 2 ∧
      (a = ((N / 2 : Nat) : Int) - 1 ∧ b = ((N / 2 : Nat) : Int))) ∨
    (seedLayout N mode a b = 3 ∧
      (a = ((N / 2 : Nat) : Int) ∧ b = ((N / 2 : Nat) : Int) - 1)) ∨
    (seedLayout N mode a b = 0 ∧
      ¬ ((a = ((N / 2 : Nat) : Int) - 1 ∨ a = ((N / 2 : Nat) : Int)) ∧
        (b = ((N / 2 : Nat) : Int) - 1 ∨ b = ((N / 2 : Nat) : Int)))) := by
  unfold seedLayout
  simp only [hm, if_false, h8, and_true]
  split_ifs <;> simp <;> omega

/-- Counting the cells of the seeded board that hold `k`, given the cells of the layout
that do. -/
theorem seed_count (N mode k : Nat) (hN : 2 ≤ N) (g : Nat → Nat → Nat)
    (hg : ∀ r c : Nat, r < N → c < N →
      (if seedLayout N mode r c = k then 1 else 0) = g r c) :
    (∑ r in Finset.range N, ∑ c in Finset.range N,
      (if cellAt (seedBoard N mode) r c = some k then 1 else 0)) =
      ∑ r in Finset.range N, ∑ c in Finset.range N, g r c := by
  apply sum_grid_congr
  intro r c hr hc
  have hin : (0 : Int) ≤ r ∧ (r : Int) < N ∧ (0 : Int) ≤ c ∧ (c : Int) < N := by omega
  rw [← hg r c hr hc, cellAt_seedBoard N mode hN]
  simp only [hin, and_self, if_true, Option.some.injEq]

/-- The scores of a new 2-player game. -/
theorem seed_scores_two (N : Nat) (hN : 2 ≤ N) :
    (calculateScore (seedState N 2)).scores = ⟨2, 2, 0⟩ := by
  have hc : N / 2 - 1 < N ∧ N / 2 < N ∧ 1 ≤ N / 2 := by omega
  have h1 : (calculateScore (seedState N 2)).scores.s1 = 2 := by
    rw [calculateScore_count _ Scores.s1 1 rfl incScore_step_s1]
    show (∑ r in Finset.range N, ∑ c in Finset.range N,
      (if cellAt (seedBoard N 2) r c = some 1 then 1 else 0)) = 2
    rw [seed_count N 2 1 hN (fun r c =>
      (if r = N / 2 - 1 ∧ c = N / 2 then 1 else 0) +
        (if r = N / 2 ∧ c = N / 2 - 1 then 1 else 0))]
    · simp only [Finset.sum_add_distrib]
      rw [sum_point N _ _ hc.1 hc.2.1, sum_point N _ _ hc.2.1 hc.1]
    · intro r c _ _
      rcases seedLayout_two_cases N r c with ⟨h, hp⟩ | ⟨h, hp⟩ | ⟨h, hp⟩ <;> rw [h] <;>
        split_ifs <;> first | omega | contradiction
  have h2 : (calculateScore (seedState N 2)).scores.s2 = 2 := by
    rw [calculateScore_count _ Scores.s2 2 rfl incScore_step_s2]
    show (∑ r in Finset.range N, ∑ c in Finset.range N,
      (if cellAt (seedBoard N 2) r c = some 2 then 1 else 0)) = 2
    rw [seed_count N 2 2 hN (fun r c =>
      (if r = N / 2 - 1 ∧ c = N / 2 - 1 then 1 else 0) +
        (if r = N / 2 ∧ c = N / 2 then 1 else 0))]
    · simp only [Finset.sum_add_distrib]
      rw [sum_point N _ _ hc.1 hc.1, sum_point N _ _ hc.2.1 hc.2.1]
    · intro r c _ _
      rcases seedLayout_two_cases N r c with ⟨h, hp⟩ | ⟨h, hp⟩ | ⟨h, hp⟩ <;> rw [h] <;>
        split_ifs <;> first | omega | contradiction
  have h3 : (calculateScore (seedState N 2)).scores.s3 = 0 := by
    rw [calculateScore_count _ Scores.s3 3 rfl incScore_step_s3]
    show (∑ r in Finset.range N, ∑ c in Finset.range N,
      (if cellAt (seedBoard N 2) r c = some 3 then 1 else 0)) = 0
    rw [seed_count N 2 3 hN (fun _ _ => 0)]
    · simp
    · intro r c _ _
      rcases seedLayout_two_cases N r c with ⟨h, hp⟩ | ⟨h, hp⟩ | ⟨h, hp⟩ <;> rw [h] <;> simp
  cases hsc : (calculateScore (seedState N 2)).scores with
  | mk a b c =>
    rw [hsc] at h1 h2 h3
    simp only at h1 h2 h3
    rw [h1, h2, h3]

/-- The scores of a new 3-player game on a board with `N ≥ 8`. -/
theorem seed_scores_three (N mode : Nat) (hm : mode ≠ 2) (h8 : 8 ≤ N) :
    (calculateScore (seedState N mode)).scores = ⟨2, 1, 1⟩ := by
  have hN : 2 ≤ N := by omega
  have hc : N / 2 - 1 < N ∧ N / 2 < N ∧ 1 ≤ N / 2 := by omega
  have h1 : (calculateScore (seedState N mode)).scores.s1 = 2 := by
    rw [calculateScore_count _ Scores.s1 1 rfl incScore_step_s1]
    show (∑ r in Finset.range N, ∑ c in Finset.range N,
      (if cellAt (seedBoard N mode) r c = some 1 then 1 else 0)) = 2
    rw [seed_count N mode 1 hN (fun r c =>
      (if r = N / 2 - 1 ∧ c = N / 2 - 1 then 1 else 0) +
        (if r = N / 2 ∧ c = N / 2 then 1 else 0))]
    · simp only [Finset.sum_add_distrib]
      rw [sum_point N _ _ hc.1 hc.1, sum_point N _ _ hc.2.1 hc.2.1]
    · intro r c _ _
      rcases seedLayout_three_cases N mode hm h8 r c with
        ⟨h, hp⟩ | ⟨h, hp⟩ | ⟨h, hp⟩ | ⟨h, hp⟩ <;> rw [h] <;> split_ifs <;>
        first | omega | contradiction
  have h2 : (calculateScore (seedState N mode)).scores.s2 = 1 := by
    rw [calculateScore_count _ Scores.s2 2 rfl incScore_step_s2]
    show (∑ r in Finset.range N, ∑ c in Finset.range N,
      (if cellAt (seedBoard N mode) r c = some 2 then 1 else 0)) = 1
    rw [seed_count N mode 2 hN (fun r c => if r = N / 2 - 1 ∧ c = N / 2 then 1 else 0)]
    · rw [sum_point N _ _ hc.1 hc.2.1]
    · intro r c _ _
      rcases seedLayout_three_cases N mode hm h8 r c with
        ⟨h, hp⟩ | ⟨h, hp⟩ | ⟨h, hp⟩ | ⟨h, hp⟩ <;> rw [h] <;> split_ifs <;>
        first | omega | contradiction
  have h3 : (calculateScore (seedState N mode)).scores.s3 = 1 := by
    rw [calculateScore_count _ Scores.s3 3 rfl incScore_step_s3]
    show (∑ r in Finset.range N, ∑ c in Finset.range N,
      (if cellAt (seedBoard N mode) r c = some 3 then 1 else 0)) = 1
    rw [seed_count N mode 3 hN (fun r c => if r = N / 2 ∧ c = N / 2 - 1 then 1 else 0)]
    · rw [sum_point N _ _ hc.2.1 hc.1]
    · intro r c _ _
      rcases seedLayout_three_cases N mode hm h8 r c with
        ⟨h, hp⟩ | ⟨h, hp⟩ | ⟨h, hp⟩ | ⟨h, hp⟩ <;> rw [h] <;> split_ifs <;>
        first | omega | contradiction
  cases hsc : (calculateScore (seedState N mode)).scores with
  | mk a b c =>
    rw [hsc] at h1 h2 h3
    simp only at h1 h2 h3
    rw [h1, h2, h3]

/-- The count of non-Empty cells as a sum over the grid. -/
theorem nonEmptyCount_eq_sum (s : GameState) :
    nonEmptyCount s =
      ∑ r in Finset.range s.boardSize, ∑ c in Finset.range s.boardSize,
        (if cellAt s.board r c = some 0 then 0 else 1) := by
  unfold nonEmptyCount
  simp only [list_sum_map_range]

/-- A new 3-player game on a board with `N ≥ 8` has four discs. -/
theorem seed_nonEmpty_three (N mode : Nat) (hm : mode ≠ 2) (h8 : 8 ≤ N) (s : GameState)
    (hb : s.board = seedBoard N mode) (hsz : s.boardSize = N) : nonEmptyCount s = 4 := by
  have hN : 2 ≤ N := by omega
  have hc : N / 2 - 1 < N ∧ N / 2 < N ∧ 1 ≤ N / 2 := by omega
  rw [nonEmptyCount_eq_sum, hsz, hb]
  rw [sum_grid_congr N _ (fun r c =>
    (if r = N / 2 - 1 ∧ c = N / 2 - 1 then 1 else 0) +
      (if r = N / 2 - 1 ∧ c = N / 2 then 1 else 0) +
      (if r = N / 2 ∧ c = N / 2 - 1 then 1 else 0) +
      (if r = N / 2 ∧ c = N / 2 then 1 else 0))]
  · simp only [Finset.sum_add_distrib]
    rw [sum_point N _ _ hc.1 hc.1, sum_point N _ _ hc.1 hc.2.1, sum_point N _ _ hc.2.1 hc.1,
      sum_point N _ _ hc.2.1 hc.2.1]
  · intro r c hr hcc
    have hin : (0 : Int) ≤ r ∧ (r : Int) < N ∧ (0 : Int) ≤ c ∧ (c : Int) < N := by omega
    rw [cellAt_seedBoard N mode hN]
    simp only [hin, and_self, if_true, Option.some.injEq]
    rcases seedLayout_three_cases N mode hm h8 r c with
      ⟨h, hp⟩ | ⟨h, hp⟩ | ⟨h, hp⟩ | ⟨h, hp⟩ <;> rw [h] <;> split_ifs <;>
      first | omega | contradiction

/-! ## Openings -/

/-- C12 (standard opening): for every `N ≥ 4`, so for every even `N ≥ 4`, a new 2-player
game has scores `1: 2, 2: 2, 3: 0` and the legal-move set cached for player 1 has exactly 4
entries: `(c-2,c-1)`, `(c-1,c-2)`, `(c,c+1)`, `(c+1,c)` with `c = floor(N / 2)`. -/
theorem standard_opening (N : Nat) (hN : 4 ≤ N) :
    ∃ s, initializeBoard N 2 = some s ∧ s.scores = ⟨2, 2, 0⟩ ∧
      s.validMoves.length = 4 ∧
      ∀ m : Coord, m ∈ s.validMoves ↔
        m ∈ [(((N / 2 : Nat) : Int) - 2, ((N / 2 : Nat) : Int) - 1),
             (((N / 2 : Nat) : Int) - 1, ((N / 2 : Nat) : Int) - 2),
             (((N / 2 : Nat) : Int), ((N / 2 : Nat) : Int) + 1),
             (((N / 2 : Nat) : Int) + 1, ((N / 2 : Nat) : Int))] := by
  have hN2 : 2 ≤ N := by omega
  have hmem : ∀ m : Coord, m ∈ getValidMoves (calculateScore (seedState N 2)) 1 ↔
      m ∈ [(((N / 2 : Nat) : Int) - 2, ((N / 2 : Nat) : Int) - 1),
           (((N / 2 : Nat) : Int) - 1, ((N / 2 : Nat) : Int) - 2),
           (((N / 2 : Nat) : Int), ((N / 2 : Nat) : Int) + 1),
           (((N / 2 : Nat) : Int) + 1, ((N / 2 : Nat) : Int))] := by
    intro m
    obtain ⟨x, y⟩ := m
    rw [mem_getValidMoves, opening_isValidMove N hN _ rfl rfl]
    simp only [List.mem_cons, Prod.mk.injEq, List.mem_singleton, List.not_mem_nil, or_false]
  refine ⟨_, initializeBoard_eq N 2 hN2, seed_scores_two N hN2, ?_, hmem⟩
  have hnd : [(((N / 2 : Nat) : Int) - 2, ((N / 2 : Nat) : Int) - 1),
           (((N / 2 : Nat) : Int) - 1, ((N / 2 : Nat) : Int) - 2),
           (((N / 2 : Nat) : Int), ((N / 2 : Nat) : Int) + 1),
           (((N / 2 : Nat) : Int) + 1, ((N / 2 : Nat) : Int))].Nodup := by
    simp only [List.nodup_cons, List.mem_cons, Prod.mk.injEq, List.mem_singleton,
      List.not_mem_nil, List.nodup_nil, not_or, not_false_eq_true, and_true]
    omega
  exact ((List.perm_ext_iff_of_nodup (getValidMoves_nodup _ 1) hnd).2 hmem).length_eq

theorem standard_opening_witness :
    4 ≤ 8 ∧ ∃ s, initializeBoard 8 2 = some s ∧ s.scores = ⟨2, 2, 0⟩ ∧
      s.validMoves.length = 4 ∧
      ∀ m : Coord, m ∈ s.validMoves ↔ m ∈ [((2 : Int), (3 : Int)), (3, 2), (4, 5), (5, 4)] :=
  ⟨by decide, standard_opening 8 (by decide)⟩

/-- C14 (scenario C): for every `N ≥ 8`, so for every even `N ≥ 8`, a new 3-player game has
exactly 4 non-Empty cells and scores `1: 2, 2: 1, 3: 1`. -/
theorem three_player_opening (N : Nat) (hN : 8 ≤ N) :
    ∃ s, initializeBoard N 3 = some s ∧ nonEmptyCount s = 4 ∧ s.scores = ⟨2, 1, 1⟩ :=
  ⟨_, initializeBoard_eq N 3 (by omega),
    seed_nonEmpty_three N 3 (by decide) hN _ rfl rfl,
    seed_scores_three N 3 (by decide) hN⟩

theorem three_player_opening_witness :
    8 ≤ 8 ∧ ∃ s, initializeBoard 8 3 = some s ∧ nonEmptyCount s = 4 ∧ s.scores = ⟨2, 1, 1⟩ :=
  ⟨by decide, three_player_opening 8 (by decide)⟩

/-! ## Properties of the capture set; game creation -/

/-- C15 (capture symmetry): on a `boardSize × boardSize` board, in 2-player mode as in any
mode, every coordinate returned by `getFlippableDiscs(row, col, p)` is a cell of the grid
that is neither Empty nor owned by `p`. -/
theorem capture_symmetry (s : GameState) (hwf : WellFormed s) (row col : Int) (p : Nat) :
    ∀ c ∈ getFlippableDiscs s row col p,
      inBounds s c.1 c.2 ∧ ∃ v, cellAt s.board c.1 c.2 = some v ∧ v ≠ 0 ∧ v ≠ p := by
  intro c hc
  have hp : p ≠ 0 := by
    rintro rfl
    rw [getFlippableDiscs_player_zero] at hc
    exact absurd hc (by simp)
  obtain ⟨hin, h0, hpp, _⟩ := getFlippableDiscs_cell hp hc
  obtain ⟨v, hv⟩ := Option.isSome_iff_exists.1 (cellAt_isSome_of_inBounds hwf hin)
  refine ⟨hin, v, hv, fun h => h0 (by rw [hv, h]), fun h => hpp (by rw [hv, h])⟩

theorem capture_symmetry_witness :
    WellFormed st4 ∧ ∀ c ∈ getFlippableDiscs st4 0 1 1,
      inBounds st4 c.1 c.2 ∧ ∃ v, cellAt st4.board c.1 c.2 = some v ∧ v ≠ 0 ∧ v ≠ 1 :=
  ⟨by decide, capture_symmetry st4 (by decide) 0 1 1⟩

/-- In 3-player mode every cell of a run of the loop holds the tracked colour, or the
colour of the first cell when none is tracked yet. -/
theorem LoopCond_mono {s : GameState} {dx dy : Int} {p : Nat} {x y : Int}
    {opp : Option (Option Nat)} {j : Nat} (hm : s.playerMode = 3)
    (h : LoopCond s dx dy p x y opp j) :
    ∀ c ∈ segCells x y dx dy j, cellAt s.board c.1 c.2 = opp.getD (cellAt s.board x y) := by
  intro c hc
  simp only [segCells, List.mem_map, List.mem_range] at hc
  obtain ⟨i, hi, rfl⟩ := hc
  exact (h.1 i hi).2.2.2 hm

/-- The run of one direction, in 3-player mode: all its cells hold one value. -/
theorem checkDirection_mono (s : GameState) (hm : s.playerMode = 3) (row col dx dy : Int)
    (p : Nat) (l : List Coord) (h : checkDirection s row col dx dy p = some l) :
    ∀ c1 ∈ l, ∀ c2 ∈ l, cellAt s.board c1.1 c1.2 = cellAt s.board c2.1 c2.2 := by
  by_cases hp : p = 0
  · subst hp
    have := checkDirectionLoop_player_zero s dx dy (s.boardSize + 1) (row + dx) (col + dy)
      none []
    unfold checkDirection at h
    rw [h, Option.getD_some] at this
    subst this
    intro c1 h1
    exact absurd h1 (by simp)
  · unfold checkDirection at h
    rcases checkDirectionLoop_spec s dx dy p hp (s.boardSize + 1) (row + dx) (col + dy) none []
      with h2 | ⟨j, hj, _, h2⟩ | ⟨_, h2⟩
    · rw [h2] at h; exact absurd h (by simp)
    · rw [h2, List.nil_append] at h
      have hl := Option.some.inj h
      subst hl
      intro c1 h1 c2 h2
      rw [LoopCond_mono hm hj c1 h1, LoopCond_mono hm hj c2 h2]
    · rw [h2] at h
      have hl := Option.some.inj h
      subst hl
      intro c1 h1
      exact absurd h1 (by simp)

/-- C16 (monochromatic runs): in 3-player mode, for every board, origin, direction and
player, all cells of the run that `checkDirection` returns hold one and the same value; and
every cell of the capture set of a move lies in such a run of one of the eight directions,
so no run in it mixes two colours. -/
theorem monochromatic_run (s : GameState) (hm : s.playerMode = 3) (row col : Int) (p : Nat) :
    (∀ (dx dy : Int) (l : List Coord), checkDirection s row col dx dy p = some l →
      ∀ c1 ∈ l, ∀ c2 ∈ l, cellAt s.board c1.1 c1.2 = cellAt s.board c2.1 c2.2) ∧
    (∀ c ∈ getFlippableDiscs s row col p, ∃ d ∈ DIRECTIONS, ∃ l,
      checkDirection s row col d.1 d.2 p = some l ∧ c ∈ l ∧
      ∀ c1 ∈ l, ∀ c2 ∈ l, cellAt s.board c1.1 c1.2 = cellAt s.board c2.1 c2.2) := by
  refine ⟨fun dx dy l h => checkDirection_mono s hm row col dx dy p l h, fun c hc => ?_⟩
  obtain ⟨d, hd, hmem⟩ := (mem_getFlippableDiscs s row col p c).1 hc
  cases hres : checkDirection s row col d.1 d.2 p with
  | none => rw [hres] at hmem; exact absurd hmem (by simp)
  | some l =>
    rw [hres, Option.getD_some] at hmem
    exact ⟨d, hd, l, hres, hmem, checkDirection_mono s hm row col d.1 d.2 p l hres⟩

theorem monochromatic_run_witness :
    st3.playerMode = 3 ∧ checkDirection st3 1 0 0 1 1 = some [(1, 1), (1, 2)] ∧
      cellAt st3.board 1 1 = cellAt st3.board 1 2 :=
  ⟨rfl, by decide,
    (monochromatic_run st3 rfl 1 0 1).1 0 1 [(1, 1), (1, 2)] (by decide) (1, 1) (by decide)
      (1, 2) (by decide)⟩

/-- C17 as stated fails: `initializeBoard` returns a game for the odd size 5, for the size
3, which is below 4, and for the mode 7, which is neither 2 nor 3. -/
theorem initializeBoard_counterexample :
    (5 % 2 = 1 ∧ initializeBoard 5 2 ≠ none) ∧ (3 < 4 ∧ initializeBoard 3 2 ≠ none) ∧
      ((7 ≠ 2 ∧ 7 ≠ 3) ∧ initializeBoard 8 7 ≠ none) := by
  decide

/-- C17, as the code has it: `initializeBoard` checks neither the size nor the mode.  For
every size of at least 2 (odd sizes and the sizes 2 and 3 included) and every mode it
creates an Active game with `boardSize = size`, `playerMode = mode`, `currentPlayer = 1` and
a `size × size` board; a mode other than 2 gets the 3-player seed layout. -/
theorem initializeBoard_no_validation (size mode : Nat) (h : 2 ≤ size) :
    ∃ s, initializeBoard size mode = some s ∧ s.boardSize = size ∧ s.playerMode = mode ∧
      s.currentPlayer = 1 ∧ s.gameActive = true ∧ WellFormed s ∧
      (mode ≠ 2 → ∀ x y : Int, inBounds s x y →
        cellAt s.board x y = some (seedLayout size 3 x y)) := by
  refine ⟨_, initializeBoard_eq size mode h, rfl, rfl, rfl, rfl, seedBoard_dims size mode,
    fun hm x y hin => ?_⟩
  have hl : seedLayout size mode x y = seedLayout size 3 x y := by
    unfold seedLayout
    simp [hm]
  rw [← hl]
  exact seed_cell h rfl rfl hin

theorem initializeBoard_no_validation_witness :
    2 ≤ 5 ∧ ∃ s, initializeBoard 5 7 = some s ∧ s.boardSize = 5 ∧ s.playerMode = 7 ∧
      s.currentPlayer = 1 ∧ s.gameActive = true ∧ WellFormed s ∧
      (7 ≠ 2 → ∀ x y : Int, inBounds s x y →
        cellAt s.board x y = some (seedLayout 5 3 x y)) :=
  ⟨by decide, initializeBoard_no_validation 5 7 (by decide)⟩

/-- C19 (write order): for every board, every cell `(row, col)` and every player `p`,
`getFlippableDiscs(row, col, p)` on the board after `p`'s disc is written at `(row, col)` is
`getFlippableDiscs(row, col, p)` on the board before the write; so an accepted move flips
exactly the capture set that made it legal, and that set is not empty. -/
theorem capture_set_write_order (s : GameState) (row col : Int) (p : Nat) :
    getFlippableDiscs { s with board := setCell s.board row col p } row col p =
      getFlippableDiscs s row col p ∧
    (isValidMove s row col p = true →
      getFlippableDiscs { s with board := setCell s.board row col p } row col p ≠ []) ∧
    (s.gameActive = true → isValidMove s row col s.currentPlayer = true →
      (handleCellClick s row col).board =
        (flipDiscs { s with board := setCell s.board row col s.currentPlayer }
          (getFlippableDiscs s row col s.currentPlayer)).board) := by
  refine ⟨getFlippableDiscs_setCell_origin s row col p p, fun hv => ?_,
    fun hact hv => handleCellClick_accept_board s row col hact hv⟩
  rw [getFlippableDiscs_setCell_origin]
  exact ((isValidMove_eq_true_iff s row col p).1 hv).2

theorem capture_set_write_order_witness :
    isValidMove st4 0 1 1 = true ∧
      getFlippableDiscs { st4 with board := setCell st4.board 0 1 1 } 0 1 1 =
        getFlippableDiscs st4 0 1 1 ∧
      getFlippableDiscs { st4 with board := setCell st4.board 0 1 1 } 0 1 1 ≠ [] :=
  ⟨by decide, (capture_set_write_order st4 0 1 1).1,
    (capture_set_write_order st4 0 1 1).2.1 (by decide)⟩

/-! ## The first move of the standard game -/

set_option maxRecDepth 100000 in
theorem initializeBoard_eight_two : initializeBoard 8 2 = some st8 := by decide

set_option maxRecDepth 100000 in
/-- C13 (scenario B): in a new 2-player 8 × 8 game each of player 1's four legal opening
moves, `(2, 3)` among them, captures exactly one cell; after it the scores are 4 for
player 1 and 1 for player 2, which sum to 5, `currentPlayer` is 2 and the game is still
Active. -/
theorem scenario_B :
    initializeBoard 8 2 = some st8 ∧ (2, 3) ∈ st8.validMoves ∧
    ∀ m ∈ st8.validMoves,
      (getFlippableDiscs st8 m.1 m.2 st8.currentPlayer).length = 1 ∧
      (handleCellClick st8 m.1 m.2).scores = ⟨4, 1, 0⟩ ∧
      (handleCellClick st8 m.1 m.2).scores.total = 5 ∧
      (handleCellClick st8 m.1 m.2).currentPlayer = 2 ∧
      (handleCellClick st8 m.1 m.2).gameActive = true :=
  ⟨initializeBoard_eight_two, by decide, by decide⟩

/-! ## Invariants of a game -/

theorem setCell_forall {P : Nat → Prop} {b : List (List Nat)}
    (h : ∀ r ∈ b, ∀ v ∈ r, P v) (x y : Int) {v0 : Nat} (h0 : P v0) :
    ∀ r ∈ setCell b x y v0, ∀ v ∈ r, P v := by
  unfold setCell
  split_ifs
  · exact h
  · cases hr : b[x.toNat]? with
    | none => exact h
    | some r0 =>
      simp only
      intro r hr2 v hv
      rcases List.mem_or_eq_of_mem_set hr2 with h2 | h2
      · exact h r h2 v hv
      · subst h2
        rcases List.mem_or_eq_of_mem_set hv with h3 | h3
        · obtain ⟨hx, hxr⟩ := List.getElem?_eq_some.1 hr
          exact h r0 (hxr ▸ List.getElem_mem hx) v h3
        · rw [h3]; exact h0

theorem flipDiscs_board_inv {P : Nat → Prop} {N : Nat} (s : GameState) (l : List Coord)
    (hd : BoardDims s.board N) (h : ∀ r ∈ s.board, ∀ v ∈ r, P v) (h0 : P s.currentPlayer) :
    BoardDims (flipDiscs s l).board N ∧ ∀ r ∈ (flipDiscs s l).board, ∀ v ∈ r, P v := by
  unfold flipDiscs
  induction l generalizing s with
  | nil => exact ⟨hd, h⟩
  | cons d l ih =>
    rw [List.foldl_cons]
    exact ih _ (setCell_dims hd _ _ _) (setCell_forall h _ _ h0) h0

theorem seedBoard_forall (N mode : Nat) (hmode : mode = 2 ∨ mode = 3) :
    ∀ r ∈ seedBoard N mode, ∀ v ∈ r, v ≤ mode := by
  have h0 : ∀ r ∈ List.replicate N (List.replicate N 0), ∀ v ∈ r, v ≤ mode := by
    intro r hr v hv
    rw [List.eq_of_mem_replicate hr] at hv
    rw [List.eq_of_mem_replicate hv]
    exact Nat.zero_le _
  unfold seedBoard
  dsimp only
  rcases hmode with rfl | rfl
  · rw [if_pos rfl]
    exact setCell_forall (setCell_forall (setCell_forall (setCell_forall h0 _ _ (by decide))
      _ _ (by decide)) _ _ (by decide)) _ _ (by decide)
  · rw [if_neg (by decide)]
    split_ifs
    · exact setCell_forall (setCell_forall (setCell_forall (setCell_forall h0 _ _ (by decide))
        _ _ (by decide)) _ _ (by decide)) _ _ (by decide)
    · exact setCell_forall (setCell_forall (setCell_forall h0 _ _ (by decide))
        _ _ (by decide)) _ _ (by decide)

/-- In a new game with the 3-player layout and `N ≥ 4`, player 1 may play to the right of
the disc of player 2. -/
theorem three_player_first_move (N mode : Nat) (hN : 4 ≤ N) (hm : mode ≠ 2) (s : GameState)
    (hb : s.board = seedBoard N mode) (hsz : s.boardSize = N) :
    inBounds s (((N / 2 : Nat) : Int) - 1) (((N / 2 : Nat) : Int) + 1) ∧
      isValidMove s (((N / 2 : Nat) : Int) - 1) (((N / 2 : Nat) : Int) + 1) 1 = true := by
  have hN2 : 2 ≤ N := by omega
  have hinb : ∀ a b : Int, (0 ≤ a ∧ a < N ∧ 0 ≤ b ∧ b < N) → inBounds s a b := by
    intro a b h; unfold inBounds; rw [hsz]; exact h
  have i0 := hinb (((N / 2 : Nat) : Int) - 1) (((N / 2 : Nat) : Int) + 1) (by omega)
  have i1 := hinb (((N / 2 : Nat) : Int) - 1 + 0) (((N / 2 : Nat) : Int) + 1 + -1) (by omega)
  have i2 := hinb (((N / 2 : Nat) : Int) - 1 + 2 * 0) (((N / 2 : Nat) : Int) + 1 + 2 * -1)
    (by omega)
  have v0 : seedLayout N mode (((N / 2 : Nat) : Int) - 1) (((N / 2 : Nat) : Int) + 1) = 0 := by
    unfold seedLayout
    simp only [hm, if_false]
    split_ifs <;> first | rfl | omega
  have v1 : seedLayout N mode (((N / 2 : Nat) : Int) - 1 + 0)
      (((N / 2 : Nat) : Int) + 1 + -1) = 2 := by
    unfold seedLayout
    simp only [hm, if_false]
    split_ifs <;> first | rfl | omega
  have v2 : seedLayout N mode (((N / 2 : Nat) : Int) - 1 + 2 * 0)
      (((N / 2 : Nat) : Int) + 1 + 2 * -1) = 1 := by
    unfold seedLayout
    simp only [hm, if_false]
    split_ifs <;> first | rfl | omega
  refine ⟨i0, (isValidMove_eq_true_iff s _ _ 1).2 ⟨by rw [seed_cell hN2 hb hsz i0, v0],
    (getFlippableDiscs_ne_nil_iff s _ _ (by decide)).2 ⟨(0, -1), by decide, 1, ?_⟩⟩⟩
  refine Capturable_one i1 ?_ ?_ i2 ?_
  · rw [seed_cell hN2 hb hsz i1, v1]; decide
  · rw [seed_cell hN2 hb hsz i1, v1]; decide
  · rw [seed_cell hN2 hb hsz i2, v2]

/-- A new game with `N ≥ 4` has a legal move for player 1. -/
theorem initial_moves_ne_nil (N mode : Nat) (hN : 4 ≤ N) (s : GameState)
    (hb : s.board = seedBoard N mode) (hsz : s.boardSize = N) :
    getValidMoves s 1 ≠ [] := by
  by_cases hm : mode = 2
  · subst hm
    have h := (opening_isValidMove N hN s hb hsz (((N / 2 : Nat) : Int) - 2)
      (((N / 2 : Nat) : Int) - 1)).2 (Or.inl ⟨rfl, rfl⟩)
    exact List.ne_nil_of_mem ((mem_getValidMoves s 1 _ _).2 h)
  · have h := three_player_first_move N mode hN hm s hb hsz
    exact List.ne_nil_of_mem ((mem_getValidMoves s 1 _ _).2 h)

/-- The state that `initializeBoard` returns satisfies the invariant. -/
theorem GameInv_init (N mode : Nat) (hN : 4 ≤ N) (hmode : mode = 2 ∨ mode = 3)
    {s : GameState} (h : initializeBoard N mode = some s) : GameInv N mode s := by
  obtain ⟨hb, hsz, hM, hcur, hact, _, hvm⟩ := initializeBoard_fields N mode (by omega) h
  have hcongr : getValidMoves (calculateScore (seedState N mode)) 1 = getValidMoves s 1 :=
    getValidMoves_congr (by rw [hb]; rfl) (by rw [hsz]; rfl) (by rw [hM]; rfl) 1
  refine ⟨by rw [hb]; exact seedBoard_dims N mode, hsz, hM, ?_, ?_, ?_, ?_⟩
  · rw [hcur]; rcases hmode with rfl | rfl <;> decide
  · rw [hb]; exact seedBoard_forall N mode hmode
  · rw [hvm, hcur, hcongr]
  · rw [hact, hvm, hcongr]
    simp only [true_iff]
    exact initial_moves_ne_nil N mode hN s hb hsz

/-- The invariant from its parts. -/
theorem GameInv_mk (N mode : Nat) (u : GameState) (hd : BoardDims u.board N)
    (hsz : u.boardSize = N) (hM : u.playerMode = mode)
    (hcur : 1 ≤ u.currentPlayer ∧ u.currentPlayer ≤ mode)
    (hcells : ∀ r ∈ u.board, ∀ v ∈ r, v ≤ mode)
    (hvm : u.validMoves = getValidMoves u u.currentPlayer)
    (hact : u.gameActive = true ↔ u.validMoves ≠ []) : GameInv N mode u :=
  ⟨hd, hsz, hM, hcur, hcells, hvm, hact⟩

/-- The state after `updateValidMoves`, field by field. -/
theorem updateValidMoves_fields (u : GameState) :
    (updateValidMoves u).board = u.board ∧ (updateValidMoves u).boardSize = u.boardSize ∧
      (updateValidMoves u).playerMode = u.playerMode ∧
      (updateValidMoves u).currentPlayer = u.currentPlayer ∧
      (updateValidMoves u).gameActive = u.gameActive ∧
      (updateValidMoves u).validMoves = getValidMoves u u.currentPlayer ∧
      (updateValidMoves u).validMoves =
        getValidMoves (updateValidMoves u) (updateValidMoves u).currentPlayer :=
  ⟨rfl, rfl, rfl, rfl, rfl, rfl,
    (getValidMoves_congr (s := updateValidMoves u) (t := u) rfl rfl rfl u.currentPlayer).symm⟩

/-- What `switchTurn` does to the current player and to `gameActive`: either some player of
the mode with a legal move becomes the current player, or nobody among the probed players,
the current one included, has a legal move and the game is no longer active. -/
theorem switchTurn_player (t : GameState)
    (hcur : 1 ≤ t.currentPlayer ∧ t.currentPlayer ≤ t.playerMode) :
    ((1 ≤ (switchTurn t).currentPlayer ∧ (switchTurn t).currentPlayer ≤ t.playerMode) ∧
      getValidMoves t (switchTurn t).currentPlayer ≠ [] ∧
      (switchTurn t).gameActive = t.gameActive) ∨
    ((switchTurn t).currentPlayer = t.currentPlayer ∧
      getValidMoves t t.currentPlayer = [] ∧ (switchTurn t).gameActive = false) := by
  have hmode1 : 1 ≤ t.playerMode := by omega
  rw [switchTurn_eq]
  cases hfind : (turnCandidates t.playerMode t.currentPlayer).find?
      (fun (r : Nat) => decide ((getValidMoves t r).length > 0)) with
  | none =>
    right
    have hlast := List.mem_of_getLast?_eq_some
      (turnCandidates_getLast t.playerMode t.currentPlayer hcur.1 hcur.2)
    have hnone := (List.find?_eq_none.1 hfind) _ hlast
    refine ⟨rfl, ?_, rfl⟩
    apply List.eq_nil_of_length_eq_zero
    simpa using hnone
  | some q =>
    left
    have hq := List.mem_of_find?_eq_some hfind
    have hpred := List.find?_some hfind
    have hlt := Nat.mod_lt t.currentPlayer (show 0 < t.playerMode by omega)
    have hrange := mem_roundRobin_range t.playerMode hmode1 _ _ q (by omega) (by omega) hq
    refine ⟨hrange, ?_, rfl⟩
    intro h
    have h2 : getValidMoves t q = [] := h
    rw [h2] at hpred
    exact absurd hpred (by simp)

/-- The turn advance re-establishes the invariant on the board after the flips. -/
theorem GameInv_turn (N mode : Nat) (t : GameState) (hd : BoardDims t.board N)
    (hsz : t.boardSize = N) (hM : t.playerMode = mode)
    (hcur : 1 ≤ t.currentPlayer ∧ t.currentPlayer ≤ mode)
    (hcells : ∀ r ∈ t.board, ∀ v ∈ r, v ≤ mode) (hact : t.gameActive = true) :
    GameInv N mode (updateValidMoves (switchTurn t)) := by
  obtain ⟨u1, u2, u3, u4, u5, u6, u7⟩ := updateValidMoves_fields (switchTurn t)
  obtain ⟨w1, w2, w3, _⟩ := switchTurn_fields t
  have hc : getValidMoves (switchTurn t) (switchTurn t).currentPlayer =
      getValidMoves t (switchTurn t).currentPlayer :=
    getValidMoves_congr (s := switchTurn t) (t := t) w1 w2 w3 _
  have hcur2 : 1 ≤ t.currentPlayer ∧ t.currentPlayer ≤ t.playerMode := by
    rw [hM]; exact hcur
  refine GameInv_mk N mode _ (by rw [u1, w1]; exact hd) (by rw [u2, w2]; exact hsz)
    (by rw [u3, w3]; exact hM) ?_ (by rw [u1, w1]; exact hcells) u7 ?_
  · rw [u4]
    rcases switchTurn_player t hcur2 with ⟨h1, _, _⟩ | ⟨h1, _, _⟩
    · rw [hM] at h1; exact h1
    · rw [h1]; exact hcur
  · rw [u5, u6, hc]
    rcases switchTurn_player t hcur2 with ⟨_, h2, h3⟩ | ⟨h1, h2, h3⟩
    · rw [h3, hact]
      simp only [true_iff]
      exact h2
    · rw [h3, h1, h2]
      simp

/-- A call of `handleCellClick` keeps the invariant. -/
theorem GameInv_click (N mode : Nat) (s : GameState) (row col : Int)
    (h : GameInv N mode s) : GameInv N mode (handleCellClick s row col) := by
  by_cases hacc : s.gameActive = true ∧ isValidMove s row col s.currentPlayer = true
  · obtain ⟨hact, hv⟩ := hacc
    obtain ⟨hd, hsz, hM, hcur, hcells, _, _⟩ := h
    rw [handleCellClick_accept s row col hact hv]
    have hf := flipDiscs_fields { s with board := setCell s.board row col s.currentPlayer }
      (getFlippableDiscs s row col s.currentPlayer)
    have hb := flipDiscs_board_inv
      { s with board := setCell s.board row col s.currentPlayer }
      (getFlippableDiscs s row col s.currentPlayer)
      (setCell_dims hd row col s.currentPlayer)
      (setCell_forall hcells row col hcur.2) hcur.2
    have hcf := calculateScore_fields
      (flipDiscs { s with board := setCell s.board row col s.currentPlayer }
        (getFlippableDiscs s row col s.currentPlayer))
    refine GameInv_turn N mode _ ?_ ?_ ?_ ?_ ?_ ?_
    · rw [hcf.1]; exact hb.1
    · rw [hcf.2.1, hf.1]; exact hsz
    · rw [hcf.2.2.1, hf.2.1]; exact hM
    · rw [hcf.2.2.2.1, hf.2.2.1]; exact hcur
    · rw [hcf.1]; exact hb.2
    · rw [hcf.2.2.2.2.1, hf.2.2.2.2.1]; exact hact
  · have hrej : s.gameActive = false ∨ isValidMove s row col s.currentPlayer = false := by
      cases ha : s.gameActive with
      | false => exact Or.inl rfl
      | true =>
        cases hv : isValidMove s row col s.currentPlayer with
        | false => exact Or.inr rfl
        | true => exact absurd ⟨ha, hv⟩ hacc
    rw [handleCellClick_reject s row col hrej]
    exact h

/-- The deferred `checkGameEnd` changes nothing on a state that satisfies the invariant. -/
theorem checkGameEnd_eq_of_inv (N mode : Nat) (s : GameState) (h : GameInv N mode s) :
    checkGameEnd s = s := by
  unfold checkGameEnd
  cases hact : s.gameActive with
  | false => rfl
  | true =>
    simp only [Bool.not_true, Bool.false_eq_true, if_false]
    by_cases he : emptyCount s = 0
    · have hnil := getValidMoves_eq_nil_of_full s he s.currentPlayer
      have := h.2.2.2.2.2.2.1 hact
      rw [h.2.2.2.2.2.1] at this
      exact absurd hnil this
    · rw [if_neg he]

/-- Every state of a game with `N ≥ 4` in mode 2 or 3 satisfies the invariant. -/
theorem reachable_inv (N mode : Nat) (hN : 4 ≤ N) (hmode : mode = 2 ∨ mode = 3)
    (s : GameState) (hr : Reachable N mode s) : GameInv N mode s := by
  induction hr with
  | init s h => exact GameInv_init N mode hN hmode h
  | click s row col _ ih => exact GameInv_click N mode s row col ih
  | endCheck s _ ih => rw [checkGameEnd_eq_of_inv N mode s ih]; exact ih

/-- C18 (board invariant): in every state reachable from `initializeBoard(N, mode)`, `N ≥ 4`
(even or not) and `mode` 2 or 3, by `handleCellClick` calls at any coordinates and runs of
the deferred `checkGameEnd`, the board is still `N × N`, `boardSize` and `playerMode` are
unchanged, every cell holds one of `0`, `1`, `2`, `3`, and in 2-player mode no cell holds
`3`. -/
theorem board_invariant (N mode : Nat) (hN : 4 ≤ N) (hmode : mode = 2 ∨ mode = 3)
    (s : GameState) (hr : Reachable N mode s) :
    s.board.length = N ∧ (∀ r ∈ s.board, r.length = N) ∧ s.boardSize = N ∧
    s.playerMode = mode ∧
    (∀ r ∈ s.board, ∀ v ∈ r, v = 0 ∨ v = 1 ∨ v = 2 ∨ v = 3) ∧
    (mode = 2 → ∀ r ∈ s.board, ∀ v ∈ r, v ≠ 3) := by
  obtain ⟨hd, hsz, hM, _, hcells, _, _⟩ := reachable_inv N mode hN hmode s hr
  refine ⟨hd.1, hd.2, hsz, hM, fun r hr v hv => ?_, fun h2 r hr v hv => ?_⟩
  · have := hcells r hr v hv
    rcases hmode with rfl | rfl <;> omega
  · have := hcells r hr v hv
    omega

/-- C20 (turn state machine): in every state reachable from `initializeBoard(N, mode)`,
`N ≥ 4` (even or not) and `mode` 2 or 3, by `handleCellClick` calls and runs of the deferred
`checkGameEnd`, `validMoves` is `getValidMoves(currentPlayer)` and `gameActive` is true if
and only if `validMoves` is non-empty; so an Active game never leaves the current player
without a legal move, and the game that `initializeBoard` creates has a legal move. -/
theorem turn_invariant (N mode : Nat) (hN : 4 ≤ N) (hmode : mode = 2 ∨ mode = 3)
    (s : GameState) (hr : Reachable N mode s) :
    s.validMoves = getValidMoves s s.currentPlayer ∧
    (s.gameActive = true ↔ s.validMoves ≠ []) ∧
    (s.gameActive = true → getValidMoves s s.currentPlayer ≠ []) ∧
    (∃ s0, initializeBoard N mode = some s0 ∧ s0.validMoves ≠ [] ∧
      s0.validMoves = getValidMoves s0 1) := by
  obtain ⟨_, _, _, _, _, hvm, hact⟩ := reachable_inv N mode hN hmode s hr
  refine ⟨hvm, hact, fun h => ?_, ?_⟩
  · rw [← hvm]; exact hact.1 h
  · have hi := GameInv_init N mode hN hmode (initializeBoard_eq N mode (by omega))
    refine ⟨_, initializeBoard_eq N mode (by omega), hi.2.2.2.2.2.2.1 rfl, ?_⟩
    exact hi.2.2.2.2.2.1

theorem board_invariant_witness :
    4 ≤ 4 ∧ ((2 : Nat) = 2 ∨ (2 : Nat) = 3) ∧
      (handleCellClick st4 0 1).board.length = 4 ∧ (handleCellClick st4 0 1).playerMode = 2 :=
  ⟨by decide, by decide,
    (board_invariant 4 2 (by decide) (by decide) _
      (Reachable.click st4 0 1 (Reachable.init st4 (by decide)))).1,
    (board_invariant 4 2 (by decide) (by decide) _
      (Reachable.click st4 0 1 (Reachable.init st4 (by decide)))).2.2.2.1⟩

theorem turn_invariant_witness :
    4 ≤ 4 ∧ ((2 : Nat) = 2 ∨ (2 : Nat) = 3) ∧
      (handleCellClick st4 0 1).validMoves =
        getValidMoves (handleCellClick st4 0 1) (handleCellClick st4 0 1).currentPlayer ∧
      ((handleCellClick st4 0 1).gameActive = true ↔ (handleCellClick st4 0 1).validMoves ≠ []) :=
  ⟨by decide, by decide,
    (turn_invariant 4 2 (by decide) (by decide) _
      (Reachable.click st4 0 1 (Reachable.init st4 (by decide)))).1,
    (turn_invariant 4 2 (by decide) (by decide) _
      (Reachable.click st4 0 1 (Reachable.init st4 (by decide)))).2.1⟩

/-! ## Turn-skip termination -/

/-- An accepted click runs the turn advance on the state after the flips. -/
theorem handleCellClick_eq_afterFlips (s : GameState) (row col : Int)
    (hact : s.gameActive = true) (hv : isValidMove s row col s.currentPlayer = true) :
    handleCellClick s row col = updateValidMoves (switchTurn (afterFlips s row col)) := by
  unfold handleCellClick afterFlips
  rw [if_neg (by simp [hact]), if_neg (by simp [hv])]

theorem afterFlips_gameActive (s : GameState) (row col : Int) :
    (afterFlips s row col).gameActive = s.gameActive := by
  unfold afterFlips
  dsimp only
  rw [(calculateScore_fields _).2.2.2.2.1, (flipDiscs_fields _ _).2.2.2.2.1]

theorem afterFlips_playerMode (s : GameState) (row col : Int) :
    (afterFlips s row col).playerMode = s.playerMode := by
  unfold afterFlips
  dsimp only
  rw [(calculateScore_fields _).2.2.1, (flipDiscs_fields _ _).2.1]

/-- When every player of the mode is without a legal move, `switchTurn` only clears
`gameActive`. -/
theorem switchTurn_stuck (t : GameState)
    (hall : ∀ q, 1 ≤ q → q ≤ t.playerMode → getValidMoves t q = []) :
    switchTurn t = { t with gameActive := false } := by
  apply switchTurn_all_empty
  intro q hq
  by_cases hM : t.playerMode = 0
  · rw [hM] at hq
    exact absurd hq (by simp [turnCandidates, roundRobin])
  · have hlt := Nat.mod_lt t.currentPlayer (Nat.pos_of_ne_zero hM)
    have := mem_roundRobin_range t.playerMode (Nat.pos_of_ne_zero hM) _ _ q (by omega)
      (by omega) hq
    exact hall q this.1 this.2

theorem playMoves_reachable (N mode : Nat) (moves : List Coord) :
    ∀ s : GameState, Reachable N mode s → Reachable N mode (playMoves s moves) := by
  unfold playMoves
  induction moves with
  | nil => intro s h; exact h
  | cons m moves ih =>
    intro s h
    rw [List.foldl_cons]
    exact ih _ (Reachable.click s m.1 m.2 h)

/-- The state `stSkip` is reached in a real game. -/
theorem stSkip_reachable : Reachable 4 2 stSkip := by
  have h : playMoves st4 [(0, 1), (0, 0), (1, 0), (0, 2), (0, 3), (2, 0), (3, 0), (2, 3)] =
      stSkip := by decide
  rw [← h]
  exact playMoves_reachable 4 2 _ st4 (Reachable.init st4 (by decide))

/-- C8 (turn-skip termination): for every Active state and every accepted move `(row, col)`,
if all `M` players of the mode have empty legal-move sets when the turn advance starts (on
the state `afterFlips`, still Active, that the move leaves once the disc is placed, the
captures are flipped and the scores are recomputed), `handleCellClick` transitions the game
to Ended (`gameActive = false`), and the transition modifies neither the board nor the
scores. -/
theorem turnSkip_termination (s : GameState) (row col : Int)
    (hact : s.gameActive = true) (hv : isValidMove s row col s.currentPlayer = true)
    (hall : ∀ q, 1 ≤ q → q ≤ s.playerMode → getValidMoves (afterFlips s row col) q = []) :
    (afterFlips s row col).gameActive = true ∧
    handleCellClick s row col = updateValidMoves (switchTurn (afterFlips s row col)) ∧
    (handleCellClick s row col).gameActive = false ∧
    (handleCellClick s row col).board = (afterFlips s row col).board ∧
    (handleCellClick s row col).scores = (afterFlips s row col).scores := by
  have heq := handleCellClick_eq_afterFlips s row col hact hv
  have hst := switchTurn_stuck (afterFlips s row col)
    (fun q h1 h2 => hall q h1 (by rw [afterFlips_playerMode] at h2; exact h2))
  refine ⟨by rw [afterFlips_gameActive]; exact hact, heq, ?_, ?_, ?_⟩
  · rw [heq, hst]; rfl
  · rw [heq, hst]; rfl
  · rw [heq, hst]; rfl

theorem turnSkip_termination_witness :
    Reachable 4 2 stSkip ∧ stSkip.gameActive = true ∧
      isValidMove stSkip 3 2 stSkip.currentPlayer = true ∧
      (∀ q, 1 ≤ q → q ≤ stSkip.playerMode → getValidMoves (afterFlips stSkip 3 2) q = []) ∧
      (handleCellClick stSkip 3 2).gameActive = false ∧
      (handleCellClick stSkip 3 2).board = (afterFlips stSkip 3 2).board ∧
      (handleCellClick stSkip 3 2).scores = (afterFlips stSkip 3 2).scores ∧
      0 < emptyCount (handleCellClick stSkip 3 2) :=
  ⟨stSkip_reachable, rfl, by decide,
    fun q h1 h2 => by
      have h3 : q ≤ 2 := h2
      interval_cases q <;> decide,
    (turnSkip_termination stSkip 3 2 rfl (by decide)
      (fun q h1 h2 => by
        have h3 : q ≤ 2 := h2
        interval_cases q <;> decide)).2.2.1,
    (turnSkip_termination stSkip 3 2 rfl (by decide)
      (fun q h1 h2 => by
        have h3 : q ≤ 2 := h2
        interval_cases q <;> decide)).2.2.2.1,
    (turnSkip_termination stSkip 3 2 rfl (by decide)
      (fun q h1 h2 => by
        have h3 : q ≤ 2 := h2
        interval_cases q <;> decide)).2.2.2.2,
    by decide⟩

end Reversie
